import Mathlib

/-!
Verification of the Insta360 X3 firmware pack/unpack tool (`fwtool.py`).

The program is shallowly embedded: byte buffers are `List Nat` (each element a
byte value `< 256`), fallible operations return `Except Err`, and the two hash
functions the tool delegates to (`zlib.crc32` and `hashlib.md5`) are given full
executable definitions.  Python strings that arise from `bytes.decode` are
represented as lists of Unicode code points (`List Nat`), so that the
`latin1`-decode / UTF-8-`encode` pair used by the tool is modelled faithfully.
-/

deriving instance DecidableEq for Except

namespace Fwtool

/-- Error signal: `format` models Python `ValueError` raised by `validate_eq` /
`validate_padding` (carrying the description argument), `structError` models
`struct.error` from `unpack` on a short buffer, `indexError` models a Python
`IndexError`, `assertionError` a failed `assert`. -/
inductive Err where
  | format (desc : String)
  | structError
  | indexError
  | assertionError
deriving DecidableEq, Repr

/-- `validate_eq(actual, expected, desc)` from the source; the embedded error
keeps the description only. -/
def validate_eq {α : Type} [DecidableEq α] (actual expected : α) (desc : String) :
    Except Err Unit :=
  if actual = expected then Except.ok () else Except.error (Err.format desc)

/-- `validate_padding(data)` from the source (the error message is modelled by a
fixed description). -/
def validate_padding (data : List Nat) : Except Err Unit :=
  if data = List.replicate data.length 0 then Except.ok ()
  else Except.error (Err.format "padding was not all zero")

/-! ## Little-endian integers -/

/-- `k` little-endian bytes of `n` (struct `<I` is `toLE 4`, `<Q` is `toLE 8`). -/
def toLE : Nat → Nat → List Nat
  | 0, _ => []
  | k + 1, n => n % 256 :: toLE k (n / 256)

/-- Read a little-endian byte list as a number (struct `unpack`). -/
def fromLE : List Nat → Nat
  | [] => 0
  | b :: rest => b + 256 * fromLE rest

/-! ## CRC-32 (zlib) -/

def CRC_POLY : Nat := 0xEDB88320

/-- One bit step of the reflected CRC-32 division. -/
def crcShift (s : Nat) : Nat :=
  if s % 2 = 1 then (s / 2) ^^^ CRC_POLY else s / 2

/-- Eight bit steps (one byte worth of division). -/
def crc8 (s : Nat) : Nat :=
  crcShift (crcShift (crcShift (crcShift (crcShift (crcShift (crcShift (crcShift s)))))))

/-- Fold one data byte into the CRC state. -/
def crcByte (s b : Nat) : Nat := crc8 (s ^^^ b)

/-- Internal CRC state after absorbing `data` from state `s`.  The `if` with
two identical branches forces the accumulated state to a numeral at every step,
so that kernel reduction of concrete instances stays shallow; both branches are
the same state, see `crcAux_cons`. -/
def crcAux : Nat → List Nat → Nat
  | s, [] => s
  | s, b :: data =>
    let t := crcByte s b
    if t = 0 then crcAux t data else crcAux t data

/-- `zlib.crc32(data, value)`: pre/post conditioning with `0xFFFFFFFF`.  The
source calls it as `crc32(data)` (with `value = 0`) and `crc32(data, running)`. -/
def crc32 (data : List Nat) (value : Nat) : Nat :=
  0xFFFFFFFF ^^^ crcAux (value ^^^ 0xFFFFFFFF) data

/-! ## MD5 (hashlib) -/

def md5K : List Nat :=
  [0xd76aa478, 0xe8c7b756, 0x242070db, 0xc1bdceee,
   0xf57c0faf, 0x4787c62a, 0xa8304613, 0xfd469501,
   0x698098d8, 0x8b44f7af, 0xffff5bb1, 0x895cd7be,
   0x6b901122, 0xfd987193, 0xa679438e, 0x49b40821,
   0xf61e2562, 0xc040b340, 0x265e5a51, 0xe9b6c7aa,
   0xd62f105d, 0x02441453, 0xd8a1e681, 0xe7d3fbc8,
   0x21e1cde6, 0xc33707d6, 0xf4d50d87, 0x455a14ed,
   0xa9e3e905, 0xfcefa3f8, 0x676f02d9, 0x8d2a4c8a,
   0xfffa3942, 0x8771f681, 0x6d9d6122, 0xfde5380c,
   0xa4beea44, 0x4bdecfa9, 0xf6bb4b60, 0xbebfbc70,
   0x289b7ec6, 0xeaa127fa, 0xd4ef3085, 0x04881d05,
   0xd9d4d039, 0xe6db99e5, 0x1fa27cf8, 0xc4ac5665,
   0xf4292244, 0x432aff97, 0xab9423a7, 0xfc93a039,
   0x655b59c3, 0x8f0ccc92, 0xffeff47d, 0x85845dd1,
   0x6fa87e4f, 0xfe2ce6e0, 0xa3014314, 0x4e0811a1,
   0xf7537e82, 0xbd3af235, 0x2ad7d2bb, 0xeb86d391]

def md5S : List Nat :=
  [7, 12, 17, 22, 7, 12, 17, 22, 7, 12, 17, 22, 7, 12, 17, 22,
   5, 9, 14, 20, 5, 9, 14, 20, 5, 9, 14, 20, 5, 9, 14, 20,
   4, 11, 16, 23, 4, 11, 16, 23, 4, 11, 16, 23, 4, 11, 16, 23,
   6, 10, 15, 21, 6, 10, 15, 21, 6, 10, 15, 21, 6, 10, 15, 21]

def rotl32 (x n : Nat) : Nat :=
  ((x <<< n) % 0x100000000) ||| (x >>> (32 - n))

def md5F (i b c d : Nat) : Nat :=
  if i < 16 then (b &&& c) ||| ((b ^^^ 0xFFFFFFFF) &&& d)
  else if i < 32 then (d &&& b) ||| ((d ^^^ 0xFFFFFFFF) &&& c)
  else if i < 48 then b ^^^ c ^^^ d
  else c ^^^ (b ||| (d ^^^ 0xFFFFFFFF))

def md5G (i : Nat) : Nat :=
  if i < 16 then i
  else if i < 32 then (5 * i + 1) % 16
  else if i < 48 then (3 * i + 5) % 16
  else (7 * i) % 16

/-- One of the 64 rounds of the MD5 compression function. -/
def md5Round (M : List Nat) (st : Nat × Nat × Nat × Nat) (i : Nat) :
    Nat × Nat × Nat × Nat :=
  match st with
  | (a, b, c, d) =>
    let f := (md5F i b c d + a + md5K.getD i 0 + M.getD (md5G i) 0) % 0x100000000
    (d, (b + rotl32 f (md5S.getD i 0)) % 0x100000000, b, c)

/-- The 16 little-endian 32-bit words of a 64-byte chunk. -/
def leWords (chunk : List Nat) : List Nat :=
  (List.range 16).map (fun i => fromLE ((chunk.drop (4 * i)).take 4))

def md5Compress (st : Nat × Nat × Nat × Nat) (chunk : List Nat) :
    Nat × Nat × Nat × Nat :=
  let r := (List.range 64).foldl (md5Round (leWords chunk)) st
  match st, r with
  | (a0, b0, c0, d0), (a, b, c, d) =>
    ((a0 + a) % 0x100000000, (b0 + b) % 0x100000000,
     (c0 + c) % 0x100000000, (d0 + d) % 0x100000000)

/-- Split a byte list into 64-byte chunks (structural recursion on a fuel
argument so that the definition reduces inside the kernel; `l.length` steps are
always enough since every step consumes 64 bytes of a non-empty list). -/
def chunk64F : Nat → List Nat → List (List Nat)
  | 0, _ => []
  | _, [] => []
  | fuel + 1, l => l.take 64 :: chunk64F fuel (l.drop 64)

/-- Split a byte list into 64-byte chunks. -/
def chunk64 (l : List Nat) : List (List Nat) := chunk64F l.length l

def md5Init : Nat × Nat × Nat × Nat := (0x67452301, 0xefcdab89, 0x98badcfe, 0x10325476)

/-- MD5 padding: `0x80`, zeros to 56 mod 64, then the 64-bit bit length. -/
def md5Pad (msg : List Nat) : List Nat :=
  msg ++ [0x80] ++ List.replicate ((119 - msg.length % 64) % 64) 0
      ++ toLE 8 ((8 * msg.length) % 0x10000000000000000)

/-- `hashlib.md5(msg).digest()` as a list of 16 bytes. -/
def md5 (msg : List Nat) : List Nat :=
  match (chunk64 (md5Pad msg)).foldl md5Compress md5Init with
  | (a, b, c, d) => toLE 4 a ++ toLE 4 b ++ toLE 4 c ++ toLE 4 d

/-! ## Text codecs

A Python `str` is modelled as its list of Unicode code points.  `latin1`
decoding maps byte `b` to code point `b` (so it is the identity on our byte
lists); `str.encode()` is UTF-8. -/

/-- UTF-8 encoding of a single code point. -/
def utf8Char (c : Nat) : List Nat :=
  if c < 0x80 then [c]
  else if c < 0x800 then [0xC0 + c / 64, 0x80 + c % 64]
  else if c < 0x10000 then [0xE0 + c / 4096, 0x80 + c / 64 % 64, 0x80 + c % 64]
  else [0xF0 + c / 0x40000, 0x80 + c / 4096 % 64, 0x80 + c / 64 % 64, 0x80 + c % 64]

/-- `str.encode()` (UTF-8) on a code point list. -/
def utf8Encode (s : List Nat) : List Nat := (s.map utf8Char).flatten

/-- `bytes.rstrip(b"\0")`. -/
def rstripZero (l : List Nat) : List Nat :=
  (l.reverse.dropWhile (fun b => b = 0)).reverse

/-- struct `Ns` packing: truncate or zero-pad to exactly `width` bytes. -/
def packBytes (width : Nat) (b : List Nat) : List Nat :=
  b.take width ++ List.replicate (width - (b.take width).length) 0

/-! ## Format constants -/

def HEADER_MAGIC : Nat := 0x8732DFE6
def SEGMENT_VERSION : Nat := 0x01000000
def SEGMENT_MAGIC : Nat := 0xA324EB90
def ROMFS_MAGIC : Nat := 0x66FC328A
def ROMFS_HEADER_LEN : Nat := 0xA000
def ROMFS_BLOCK_LEN : Nat := 2048

/-- `calcsize(SEGHEADER_FORMAT) = calcsize("<IIIIIII228s")` – seven `uint32`
fields plus 228 padding bytes. -/
def SEGHEADER_LEN : Nat := 256

/-- `calcsize(TRAILER_FORMAT) = calcsize("<I32s32s16s8sQ")`. -/
def TRAILER_LEN : Nat := 100

def MD5_LEN : Nat := 16

/-! ## Data model -/

/-- Per-segment metadata recorded by `_decode_body` / consumed by `_encode_body`. -/
structure SegMeta where
  version : Nat
  date : Nat
  extra1 : Nat
  extra2 : Nat
deriving DecidableEq, Repr

/-- Body metadata: the opaque `header_extra` region (kept as bytes; the source
stores it hex-encoded, `bytes.fromhex` being its inverse) plus the segment
metadata list. -/
structure BodyMeta where
  header_extra : List Nat
  segments : List SegMeta
deriving DecidableEq, Repr

/-- Trailer metadata.  The three name fields are Python strings (code point
lists), `hw_rev` an integer. -/
structure TrailerMeta where
  product_name : List Nat
  version_name : List Nat
  hw_id : List Nat
  hw_rev : Nat
deriving DecidableEq, Repr

/-- Code points of `"onex3"`. -/
def onex3 : List Nat := [111, 110, 101, 120, 51]

/-- Code points of `"WFNI3XNO"`. -/
def wfni3xno : List Nat := [87, 70, 78, 73, 51, 88, 78, 79]

/-! ## TrailerCodec -/

/-- `_decode_trailer`.  The reads partition the buffer: `data` is everything but
the last `TRAILER_LEN + MD5_LEN = 116` bytes (Python `read(n)` with negative `n`
— a file shorter than 116 bytes — reads the whole file, hence the branch).
`unpack` sits after the hash checks in the source, so the short-buffer
`struct.error` is raised only if the hash checks pass. -/
def decode_trailer (buf : List Nat) : Except Err (TrailerMeta × List Nat) :=
  let total := buf.length
  let dataLen := if total < 116 then total else total - 116
  let data := buf.take dataLen
  let trailer := (buf.drop dataLen).take 100
  let final_hash := ((buf.drop dataLen).drop 100).take 16
  let rest := ((buf.drop dataLen).drop 100).drop 16
  do
  validate_eq rest [] "trailing data"
  let h1 := md5 data
  let h2 := md5 (data ++ trailer)
  validate_eq h2 final_hash "final hash"
  if trailer.length ≠ 100 then throw Err.structError else do
  let body_size := fromLE (trailer.take 4)
  let product_name := rstripZero ((trailer.drop 4).take 32)
  let version_name := rstripZero ((trailer.drop 36).take 32)
  let body_hash := (trailer.drop 68).take 16
  let hw_id := (trailer.drop 84).take 8
  let hw_rev := fromLE ((trailer.drop 92).take 8)
  validate_eq product_name onex3 "product name"
  validate_eq hw_id wfni3xno "hardware ID"
  validate_eq hw_rev 1 "hardware revision"
  validate_eq body_size data.length "size without trailer"
  validate_eq h1 body_hash "hash without trailer"
  pure (⟨product_name, version_name, hw_id, hw_rev⟩, data)

/-- `_encode_trailer` composed with `encode_fw`'s `body + trailer` concatenation
(the spec's `TrailerCodec.encode(m, b) = b || trailer || final_hash`). -/
def encode_trailer (metadata : TrailerMeta) (body : List Nat) : List Nat :=
  let trailer := toLE 4 body.length
      ++ packBytes 32 (utf8Encode metadata.product_name)
      ++ packBytes 32 (utf8Encode metadata.version_name)
      ++ md5 body
      ++ packBytes 8 (utf8Encode metadata.hw_id)
      ++ toLE 8 metadata.hw_rev
  body ++ trailer ++ md5 (body ++ trailer)

/-! ## BodyCodec -/

/-- `k` sequential `read(8)` + `unpack(HEADER_SEG_FORMAT, ...)` steps. -/
def parseSlotsN : Nat → List Nat → List (Nat × Nat)
  | 0, _ => []
  | k + 1, buf =>
    (fromLE (buf.take 4), fromLE ((buf.drop 4).take 4)) :: parseSlotsN k (buf.drop 8)

/-- The sixteen `(size, crc)` slots unpacked from the 128-byte slot table. -/
def parseSlots (buf : List Nat) : List (Nat × Nat) := parseSlotsN 16 buf

/-- `while seg_infos and seg_infos[-1] == (0, 0): seg_infos.pop()`. -/
def trimSlots (l : List (Nat × Nat)) : List (Nat × Nat) :=
  (l.reverse.dropWhile (fun p => p = (0, 0))).reverse

/-- The per-segment loop of `_decode_body`: for each `(seg_size, seg_crc)` slot
read a 256-byte segment header, validate it, read the payload, check both CRCs.
Returns the metadata list, payload list, the unconsumed buffer and the final
running CRC. -/
def decodeSegs :
    List (Nat × Nat) → List Nat → Nat →
    Except Err (List SegMeta × List (List Nat) × List Nat × Nat)
  | [], buf, crc => pure ([], [], buf, crc)
  | (seg_size, seg_crc) :: slots, buf, crc => do
    let sf_header := buf.take 256
    if sf_header.length ≠ 256 then throw Err.structError else do
    let sh_crc := fromLE (sf_header.take 4)
    let sh_version := fromLE ((sf_header.drop 4).take 4)
    let sh_date := fromLE ((sf_header.drop 8).take 4)
    let sh_size := fromLE ((sf_header.drop 12).take 4)
    let sh_extra1 := fromLE ((sf_header.drop 16).take 4)
    let sh_extra2 := fromLE ((sf_header.drop 20).take 4)
    let sh_magic := fromLE ((sf_header.drop 24).take 4)
    let sh_padding := sf_header.drop 28
    validate_eq sh_version SEGMENT_VERSION "segment version?"
    validate_eq sh_magic SEGMENT_MAGIC "segment magic"
    validate_padding sh_padding
    if seg_size ≠ 0 then validate_eq seg_size (sh_size + 256) "segment size"
      else pure ()
    let sf_data := (buf.drop 256).take sh_size
    let crc2 := crc32 sf_data (crc32 sf_header crc)
    validate_eq (crc32 sf_data 0) sh_crc "segment data crc"
    validate_eq (0xFFFFFFFF - crc2) seg_crc "segment running crc"
    let r ← decodeSegs slots ((buf.drop 256).drop sh_size) crc2
    pure (⟨sh_version, sh_date, sh_extra1, sh_extra2⟩ :: r.1,
          sf_data :: r.2.1, r.2.2)

/-- `_decode_body`.  Python's sixteen `read(8)`/`unpack` pairs raise
`struct.error` exactly when fewer than 128 bytes remain, modelled by one length
test.  `read(HEADER_EXTRA_LEN)` never fails (short reads are allowed). -/
def decode_body (buf : List Nat) : Except Err (BodyMeta × List (List Nat)) := do
  let chunk := buf.take 48
  if chunk.length ≠ 48 then throw Err.structError else do
  let zero1 := chunk.take 32
  let magic := fromLE ((chunk.drop 32).take 4)
  let body_crc := fromLE ((chunk.drop 36).take 4)
  let zero2 := (chunk.drop 40).take 8
  validate_padding zero1
  validate_eq magic HEADER_MAGIC "header magic"
  validate_padding zero2
  let rest := buf.drop 48
  if rest.length < 128 then throw Err.structError else do
  let seg_infos := trimSlots (parseSlots (rest.take 128))
  let extra := (rest.drop 128).take 0x180
  validate_eq seg_infos.length 6 "number of segments"
  let r ← decodeSegs seg_infos ((rest.drop 128).drop 0x180) 0
  validate_eq r.2.2.1 [] "trailing data"
  validate_eq r.2.2.2 body_crc "body crc"
  pure (⟨extra, r.1⟩, r.2.1)

/-- `pack(SEGHEADER_FORMAT, crc32(sf_data), version, date, len(sf_data),
extra1, extra2, SEGMENT_MAGIC, b"")` — the 256-byte segment header built by
`_encode_body`. -/
def segHeader (md : SegMeta) (sf_data : List Nat) : List Nat :=
  toLE 4 (crc32 sf_data 0) ++ toLE 4 md.version ++ toLE 4 md.date
    ++ toLE 4 sf_data.length ++ toLE 4 md.extra1 ++ toLE 4 md.extra2
    ++ toLE 4 SEGMENT_MAGIC ++ List.replicate 228 0

/-- The per-segment loop of `_encode_body`: builds the concatenated
header+payload bytes, the slot list `(len(header)+len(payload), 0xFFFFFFFF -
running_crc)` and the final running CRC. -/
def encodeSegs : List (SegMeta × List Nat) → Nat →
    List Nat × List (Nat × Nat) × Nat
  | [], crc => ([], [], crc)
  | (md, sf_data) :: rest, crc =>
    let sf_header := segHeader md sf_data
    let crc2 := crc32 sf_data (crc32 sf_header crc)
    let r := encodeSegs rest crc2
    (sf_header ++ sf_data ++ r.1, (256 + sf_data.length, 0xFFFFFFFF - crc2) :: r.2.1, r.2.2)

/-- `seg_infos[-1][0] = 0` (zero the size of the last slot). -/
def zeroLastSize : List (Nat × Nat) → List (Nat × Nat)
  | [] => []
  | [(_, c)] => [(0, c)]
  | p :: rest => p :: zeroLastSize rest

/-- One 8-byte slot record. -/
def slotBytes (p : Nat × Nat) : List Nat := toLE 4 p.1 ++ toLE 4 p.2

/-- `_encode_body`.  `seg_infos[-1][0] = 0` on an empty list is a Python
`IndexError`; the slot list is padded with `(0, 0)` to sixteen entries and only
the first sixteen are emitted (`for i in range(HEADER_SEG_COUNT)`). -/
def encode_body (metadata : BodyMeta) (segment_data : List (List Nat)) :
    Except Err (List Nat) := do
  validate_eq metadata.segments.length segment_data.length "number of segments"
  let r := encodeSegs (metadata.segments.zip segment_data) 0
  let header1 := List.replicate 32 0 ++ toLE 4 HEADER_MAGIC ++ toLE 4 r.2.2
      ++ List.replicate 8 0
  if r.2.1 = [] then throw Err.indexError else do
  let seg_infos := zeroLastSize r.2.1
  let padded := seg_infos ++ List.replicate (16 - seg_infos.length) (0, 0)
  pure (header1 ++ ((padded.take 16).map slotBytes).flatten
      ++ metadata.header_extra ++ r.1)

/-! ## RomFsCodec -/

/-- `struct.pack("<I", n)`: four little-endian bytes, or `struct.error` when
the value does not fit an unsigned 32-bit field. -/
def packU4 (n : Nat) : Except Err (List Nat) :=
  if n < 2 ^ 32 then Except.ok (toLE 4 n) else Except.error Err.structError

/-- Pure shape of one `encode_romfs` loop iteration (what `romfsStepE`
computes when its pack fields are in range, see `romfsStepE_ok`).  Input
files are `(filename code points, content bytes)` pairs; the accumulator is
the pair (directory bytes, data-region bytes).  Note the source comment:
padding is added even when the data length is already a multiple of the
block size. -/
def romfsStep (acc : List Nat × List Nat) (f : List Nat × List Nat) :
    List Nat × List Nat :=
  let hdr := acc.1 ++ packBytes 64 (utf8Encode f.1) ++ toLE 4 f.2.length
      ++ toLE 4 (acc.2.length + ROMFS_HEADER_LEN) ++ toLE 4 (crc32 f.2 0)
  let d2 := acc.2 ++ f.2
  (hdr, d2 ++ List.replicate (ROMFS_BLOCK_LEN - d2.length % ROMFS_BLOCK_LEN) 0)

/-- One `encode_romfs` loop iteration with the `struct.pack` range errors
modeled: `pack("<64sIII", name, size, offset, crc)` raises `struct.error`
when the file length or the data offset does not fit an unsigned 32-bit
field.  The crc field is the value of `zlib.crc32` and in the program is
always below `2 ^ 32`; the `64s` name field truncates or zero-pads and never
raises. -/
def romfsStepE (acc : List Nat × List Nat) (f : List Nat × List Nat) :
    Except Err (List Nat × List Nat) := do
  let sz ← packU4 f.2.length
  let off ← packU4 (acc.2.length + ROMFS_HEADER_LEN)
  let d2 := acc.2 ++ f.2
  pure (acc.1 ++ packBytes 64 (utf8Encode f.1) ++ sz ++ off ++ toLE 4 (crc32 f.2 0),
    d2 ++ List.replicate (ROMFS_BLOCK_LEN - d2.length % ROMFS_BLOCK_LEN) 0)

/-- Directory and data region accumulated over all files (pure shape of the
`encode_romfs` loop, see `romfs_foldlM_ok`). -/
def romfsCore (files : List (List Nat × List Nat)) : List Nat × List Nat :=
  files.foldl romfsStep (toLE 4 ROMFS_MAGIC ++ toLE 4 files.length, [])

/-- Every `struct.pack` field along the `encode_romfs` loop fits 32 bits,
starting the loop with a data region of `dlen` bytes: each file's length and
each file's data offset `dlen + 0xA000` are below `2 ^ 32`.  The recursion
advances `dlen` exactly as `romfsStep` grows the data region. -/
def romfsInRange (dlen : Nat) : List (List Nat × List Nat) → Bool
  | [] => true
  | f :: fs =>
    decide (f.2.length < 2 ^ 32) && decide (dlen + ROMFS_HEADER_LEN < 2 ^ 32) &&
      romfsInRange ((dlen + f.2.length)
        + (ROMFS_BLOCK_LEN - (dlen + f.2.length) % ROMFS_BLOCK_LEN)) fs

/-- `encode_romfs`: `pack("<II", ROMFS_MAGIC, len(filenames))` (raising
`struct.error` for `2 ^ 32` or more files), the directory/data loop, then
`assert len(header) < ROMFS_HEADER_LEN` and zero-padding of the directory
region to exactly `0xA000` bytes before the data region. -/
def encode_romfs (files : List (List Nat × List Nat)) : Except Err (List Nat) := do
  let cnt ← packU4 files.length
  let r ← files.foldlM romfsStepE (toLE 4 ROMFS_MAGIC ++ cnt, [])
  if r.1.length < ROMFS_HEADER_LEN then
    pure (r.1 ++ List.replicate (ROMFS_HEADER_LEN - r.1.length) 0 ++ r.2)
  else Except.error Err.assertionError

/-- Byte predicate: every element of the buffer is an actual byte. -/
def IsBytes (l : List Nat) : Prop := ∀ b ∈ l, b < 256

instance (l : List Nat) : Decidable (IsBytes l) := by
  unfold IsBytes; infer_instance

/-! ## Derived definitions and concrete examples -/

/-- Explicit left inverse of the CRC bit step (on 32-bit states). -/
def crcShiftInv (t : Nat) : Nat :=
  if 2 ^ 31 ≤ t then 2 * (t ^^^ CRC_POLY) + 1 else 2 * t

/-- Well-formed per-segment input for `_encode_body`: fields fit in 32 bits,
the version is the constant the decoder insists on, payload bytes are bytes. -/
def WfSeg (p : SegMeta × List Nat) : Prop :=
  p.1.version = SEGMENT_VERSION ∧ p.1.date < 0x100000000 ∧
    p.1.extra1 < 0x100000000 ∧ p.1.extra2 < 0x100000000 ∧
    IsBytes p.2 ∧ 256 + p.2.length < 0x100000000

instance (p : SegMeta × List Nat) : Decidable (WfSeg p) := by
  unfold WfSeg; infer_instance

/-- What `_decode_body` does after the 48-byte header has been parsed and
validated: `rest` is the buffer from offset 48 on, `crcv` the parsed
`body_crc`. -/
def decodeBodyTail (rest : List Nat) (crcv : Nat) :
    Except Err (BodyMeta × List (List Nat)) := do
  let seg_infos := trimSlots (parseSlots (rest.take 128))
  validate_eq seg_infos.length 6 "number of segments"
  let r ← decodeSegs seg_infos ((rest.drop 128).drop 0x180) 0
  validate_eq r.2.2.1 [] "trailing data"
  validate_eq r.2.2.2 crcv "body crc"
  pure (⟨(rest.drop 128).take 0x180, r.1⟩, r.2.1)

/-- Bytes consumed by a list of decoded segments. -/
def segConsumed (datas : List (List Nat)) : Nat :=
  (datas.map (fun d => 256 + d.length)).sum

def exC5md : BodyMeta := ⟨[], [⟨SEGMENT_VERSION, 0, 0, 0⟩, ⟨SEGMENT_VERSION, 0, 0, 0⟩]⟩

def exC5pl : List (List Nat) := [[5], [6]]

def exC5out : List Nat := (encode_body exC5md exC5pl).toOption.getD []

def exC5md17 : BodyMeta := ⟨[], List.replicate 17 ⟨SEGMENT_VERSION, 0, 0, 0⟩⟩

def exC5out17 : List Nat := (encode_body exC5md17 (List.replicate 17 [])).toOption.getD []

def exC9md : BodyMeta :=
  ⟨List.replicate 0x180 0,
    List.replicate 6 ⟨SEGMENT_VERSION, 0, 0, 0⟩ ++ [⟨SEGMENT_VERSION, 0, 0, 0x7200E84F⟩]⟩

def exC9pl : List (List Nat) := List.replicate 7 []

/-- The assembled seven-segment buffer of the C9 counterexample. -/

def exC9out : List Nat :=
  List.replicate 32 0 ++ toLE 4 HEADER_MAGIC
    ++ toLE 4 (encodeSegs (exC9md.segments.zip exC9pl) 0).2.2
    ++ List.replicate 8 0
    ++ (((zeroLastSize (encodeSegs (exC9md.segments.zip exC9pl) 0).2.1
          ++ List.replicate
            (16 - (zeroLastSize (encodeSegs (exC9md.segments.zip exC9pl) 0).2.1).length)
            (0, 0)).take 16).map slotBytes).flatten
    ++ exC9md.header_extra ++ (encodeSegs (exC9md.segments.zip exC9pl) 0).1

def exC2trailer : List Nat :=
  toLE 4 3 ++ packBytes 32 onex3 ++ packBytes 32 [0xE9]
    ++ md5 [9, 9, 9] ++ packBytes 8 wfni3xno ++ toLE 8 1

def exC2buf : List Nat := [9, 9, 9] ++ exC2trailer ++ md5 ([9, 9, 9] ++ exC2trailer)

/-! ## Little-endian lemmas -/

theorem toLE_length (k n : Nat) : (toLE k n).length = k := by
  induction k generalizing n with
  | zero => rfl
  | succ k ih => simp [toLE, ih]

theorem toLE_isBytes (k n : Nat) : IsBytes (toLE k n) := by
  induction k generalizing n with
  | zero => intro b hb; simp [toLE] at hb
  | succ k ih =>
    intro b hb
    simp only [toLE, List.mem_cons] at hb
    rcases hb with h | h
    · omega
    · exact ih _ _ h

theorem fromLE_toLE (k n : Nat) : fromLE (toLE k n) = n % 256 ^ k := by
  induction k generalizing n with
  | zero => simp [toLE, fromLE, Nat.mod_one]
  | succ k ih =>
    simp only [toLE, fromLE, ih]
    rw [pow_succ, Nat.mul_comm (256 ^ k) 256]
    exact Nat.mod_mul.symm

theorem toLE_fromLE (l : List Nat) (hb : IsBytes l) : toLE l.length (fromLE l) = l := by
  induction l with
  | nil => rfl
  | cons b rest ih =>
    have hb0 : b < 256 := hb b (List.mem_cons_self b rest)
    have hrest : IsBytes rest := fun x hx => hb x (List.mem_cons_of_mem b hx)
    simp only [List.length_cons, toLE, fromLE]
    have h1 : (b + 256 * fromLE rest) / 256 = fromLE rest := by omega
    have h2 : (b + 256 * fromLE rest) % 256 = b := by omega
    rw [h1, h2, ih hrest]

theorem fromLE_lt (l : List Nat) (hb : IsBytes l) : fromLE l < 256 ^ l.length := by
  induction l with
  | nil => simp [fromLE]
  | cons b rest ih =>
    have hb0 : b < 256 := hb b (List.mem_cons_self b rest)
    have hrest : IsBytes rest := fun x hx => hb x (List.mem_cons_of_mem b hx)
    have := ih hrest
    simp only [fromLE, List.length_cons, pow_succ]
    calc b + 256 * fromLE rest < 256 * (fromLE rest + 1) := by omega
    _ ≤ 256 * 256 ^ rest.length := by
        have : fromLE rest + 1 ≤ 256 ^ rest.length := this
        exact Nat.mul_le_mul_left 256 this
    _ = 256 ^ rest.length * 256 := by ring

theorem fromLE_inj (l l' : List Nat) (hb : IsBytes l) (hb' : IsBytes l')
    (hlen : l.length = l'.length) (h : fromLE l = fromLE l') : l = l' := by
  have := toLE_fromLE l hb
  rw [h, hlen, toLE_fromLE l' hb'] at this
  exact this.symm

/-! ## CRC-32 lemmas -/

theorem crcAux_nil (s : Nat) : crcAux s [] = s := rfl

theorem crcAux_cons (s b : Nat) (l : List Nat) :
    crcAux s (b :: l) = crcAux (crcByte s b) l := by
  simp [crcAux]

theorem crcAux_append (s : Nat) (a b : List Nat) :
    crcAux s (a ++ b) = crcAux (crcAux s a) b := by
  induction a generalizing s with
  | nil => rfl
  | cons x xs ih => simp [crcAux_cons, ih]

theorem crc32_append (a b : List Nat) (v : Nat) :
    crc32 (a ++ b) v = crc32 b (crc32 a v) := by
  have hcancel : ∀ t : Nat, 0xFFFFFFFF ^^^ t ^^^ 0xFFFFFFFF = t := by
    intro t
    rw [Nat.xor_comm 0xFFFFFFFF t, Nat.xor_cancel_right]
  simp [crc32, crcAux_append, hcancel]

theorem crcShift_lt (s : Nat) (h : s < 2 ^ 32) : crcShift s < 2 ^ 32 := by
  unfold crcShift
  split
  · exact Nat.xor_lt_two_pow (by omega) (by norm_num [CRC_POLY])
  · omega

theorem crc8_lt (s : Nat) (h : s < 2 ^ 32) : crc8 s < 2 ^ 32 := by
  unfold crc8
  iterate 8 apply crcShift_lt
  exact h

theorem crcByte_lt (s b : Nat) (hs : s < 2 ^ 32) (hb : b < 256) :
    crcByte s b < 2 ^ 32 :=
  crc8_lt _ (Nat.xor_lt_two_pow hs (by omega))

theorem crcAux_lt (s : Nat) (l : List Nat) (hs : s < 2 ^ 32) (hl : IsBytes l) :
    crcAux s l < 2 ^ 32 := by
  induction l generalizing s with
  | nil => exact hs
  | cons b rest ih =>
    rw [crcAux_cons]
    exact ih _ (crcByte_lt s b hs (hl b (List.mem_cons_self b rest)))
      (fun x hx => hl x (List.mem_cons_of_mem b hx))

theorem crc32_lt (l : List Nat) (v : Nat) (hv : v < 2 ^ 32) (hl : IsBytes l) :
    crc32 l v < 2 ^ 32 :=
  Nat.xor_lt_two_pow (by norm_num)
    (crcAux_lt _ _ (Nat.xor_lt_two_pow hv (by norm_num)) hl)

theorem xor_left_cancel {a b c : Nat} (h : a ^^^ b = a ^^^ c) : b = c := by
  have h2 := congrArg (fun z => a ^^^ z) h
  simpa [← Nat.xor_assoc, Nat.xor_self, Nat.zero_xor] using h2

theorem xor_right_cancel {a b c : Nat} (h : a ^^^ c = b ^^^ c) : a = b := by
  have h2 := congrArg (fun z => z ^^^ c) h
  simpa [Nat.xor_assoc, Nat.xor_self, Nat.xor_zero] using h2

theorem crcShiftInv_crcShift (s : Nat) (h : s < 2 ^ 32) :
    crcShiftInv (crcShift s) = s := by
  unfold crcShift crcShiftInv
  by_cases hodd : s % 2 = 1
  · rw [if_pos hodd]
    have hhalf : s / 2 < 2 ^ 31 := by omega
    have htop : 2 ^ 31 ≤ s / 2 ^^^ CRC_POLY := by
      apply Nat.testBit_implies_ge
      rw [Nat.testBit_xor, Nat.testBit_lt_two_pow hhalf]
      decide
    rw [if_pos htop, Nat.xor_cancel_right]
    omega
  · rw [if_neg hodd]
    have hhalf : s / 2 < 2 ^ 31 := by omega
    rw [if_neg (by omega)]
    omega

theorem crcShift_inj {s s' : Nat} (hs : s < 2 ^ 32) (hs' : s' < 2 ^ 32)
    (h : crcShift s = crcShift s') : s = s' := by
  have := congrArg crcShiftInv h
  rwa [crcShiftInv_crcShift s hs, crcShiftInv_crcShift s' hs'] at this

theorem crc8_inj {s s' : Nat} (hs : s < 2 ^ 32) (hs' : s' < 2 ^ 32)
    (h : crc8 s = crc8 s') : s = s' := by
  unfold crc8 at h
  have l1 := crcShift_lt _ hs
  have l2 := crcShift_lt _ l1
  have l3 := crcShift_lt _ l2
  have l4 := crcShift_lt _ l3
  have l5 := crcShift_lt _ l4
  have l6 := crcShift_lt _ l5
  have l7 := crcShift_lt _ l6
  have r1 := crcShift_lt _ hs'
  have r2 := crcShift_lt _ r1
  have r3 := crcShift_lt _ r2
  have r4 := crcShift_lt _ r3
  have r5 := crcShift_lt _ r4
  have r6 := crcShift_lt _ r5
  have r7 := crcShift_lt _ r6
  exact crcShift_inj hs hs' (crcShift_inj l1 r1 (crcShift_inj l2 r2
    (crcShift_inj l3 r3 (crcShift_inj l4 r4 (crcShift_inj l5 r5
      (crcShift_inj l6 r6 (crcShift_inj l7 r7 h)))))))

theorem crcByte_state_inj {s s' b : Nat} (hs : s < 2 ^ 32) (hs' : s' < 2 ^ 32)
    (hb : b < 256) (h : crcByte s b = crcByte s' b) : s = s' := by
  unfold crcByte at h
  have hx := crc8_inj (Nat.xor_lt_two_pow hs (by omega))
    (Nat.xor_lt_two_pow hs' (by omega)) h
  exact xor_right_cancel hx

theorem crcByte_byte_inj {s b b' : Nat} (hs : s < 2 ^ 32) (hb : b < 256)
    (hb' : b' < 256) (hne : b ≠ b') : crcByte s b ≠ crcByte s b' := by
  intro h
  unfold crcByte at h
  have hx := crc8_inj (Nat.xor_lt_two_pow hs (by omega))
    (Nat.xor_lt_two_pow hs (by omega)) h
  exact hne (xor_left_cancel hx)

theorem crcAux_state_inj {s s' : Nat} (l : List Nat) (hs : s < 2 ^ 32)
    (hs' : s' < 2 ^ 32) (hl : IsBytes l) (hne : s ≠ s') :
    crcAux s l ≠ crcAux s' l := by
  induction l generalizing s s' with
  | nil => simpa [crcAux_nil]
  | cons b rest ih =>
    rw [crcAux_cons, crcAux_cons]
    have hb : b < 256 := hl b (List.mem_cons_self b rest)
    have hrest : IsBytes rest := fun x hx => hl x (List.mem_cons_of_mem b hx)
    exact ih (crcByte_lt _ _ hs hb) (crcByte_lt _ _ hs' hb) hrest
      (fun h => hne (crcByte_state_inj hs hs' hb h))

/-- Changing a single byte of the input always changes the CRC-32. -/
theorem crc32_flip (pre suf : List Nat) {b b' : Nat} (v : Nat)
    (hpre : IsBytes pre) (hsuf : IsBytes suf) (hb : b < 256) (hb' : b' < 256)
    (hv : v < 2 ^ 32) (hne : b ≠ b') :
    crc32 (pre ++ b :: suf) v ≠ crc32 (pre ++ b' :: suf) v := by
  intro h
  unfold crc32 at h
  have hs : crcAux (v ^^^ 0xFFFFFFFF) pre < 2 ^ 32 :=
    crcAux_lt _ _ (Nat.xor_lt_two_pow hv (by norm_num)) hpre
  have h2 := xor_left_cancel h
  rw [crcAux_append, crcAux_append, crcAux_cons, crcAux_cons] at h2
  exact crcAux_state_inj suf (crcByte_lt _ _ hs hb) (crcByte_lt _ _ hs hb') hsuf
    (crcByte_byte_inj hs hb hb' hne) h2

/-! ## Validation lemmas -/

theorem validate_eq_ok {α : Type} [DecidableEq α] {a b : α} (h : a = b) (d : String) :
    validate_eq a b d = Except.ok () := by simp [validate_eq, h]

theorem validate_eq_err {α : Type} [DecidableEq α] {a b : α} (h : a ≠ b) (d : String) :
    validate_eq a b d = Except.error (Err.format d) := by simp [validate_eq, h]

theorem validate_padding_replicate (n : Nat) :
    validate_padding (List.replicate n 0) = Except.ok () := by
  simp [validate_padding]

/-! ## Byte-list utilities -/

theorem isBytes_nil : IsBytes [] := by intro b hb; simp at hb

theorem isBytes_append {a b : List Nat} (ha : IsBytes a) (hb : IsBytes b) :
    IsBytes (a ++ b) := by
  intro x hx
  rcases List.mem_append.mp hx with h | h
  · exact ha x h
  · exact hb x h

theorem isBytes_replicate (n : Nat) : IsBytes (List.replicate n 0) := by
  intro x hx
  have := List.eq_of_mem_replicate hx
  omega

theorem isBytes_take (n : Nat) {l : List Nat} (h : IsBytes l) : IsBytes (l.take n) :=
  fun x hx => h x (List.mem_of_mem_take hx)

theorem isBytes_drop (n : Nat) {l : List Nat} (h : IsBytes l) : IsBytes (l.drop n) :=
  fun x hx => h x (List.mem_of_mem_drop hx)

/-- Reading the first 4 bytes of `toLE 4 x ++ rest` gives back `x`. -/
theorem fromLE4_here (x : Nat) (rest : List Nat) (hx : x < 0x100000000) :
    fromLE ((toLE 4 x ++ rest).take 4) = x := by
  rw [List.take_left' (toLE_length 4 x), fromLE_toLE]
  have : (256 : Nat) ^ 4 = 0x100000000 := by norm_num
  rw [this]
  exact Nat.mod_eq_of_lt hx

theorem drop4_here (x : Nat) (rest : List Nat) : (toLE 4 x ++ rest).drop 4 = rest :=
  List.drop_left' (toLE_length 4 x)

/-! ## Segment header layout -/

theorem segHeader_length (md : SegMeta) (data : List Nat) :
    (segHeader md data).length = 256 := by
  simp only [segHeader, List.length_append, toLE_length, List.length_replicate]

theorem segHeader_isBytes (md : SegMeta) (data : List Nat) :
    IsBytes (segHeader md data) := by
  unfold segHeader
  repeat' apply isBytes_append
  all_goals first | exact toLE_isBytes 4 _ | exact isBytes_replicate 228

theorem crc32_data_lt (data : List Nat) (h : IsBytes data) : crc32 data 0 < 2 ^ 32 :=
  crc32_lt data 0 (by norm_num) h

/-- All seven 32-bit fields and the padding of an encoded segment header. -/
theorem segHeader_fields (md : SegMeta) (data : List Nat) (hdata : IsBytes data)
    (hver : md.version < 0x100000000) (hdate : md.date < 0x100000000)
    (hlen : data.length < 0x100000000)
    (he1 : md.extra1 < 0x100000000) (he2 : md.extra2 < 0x100000000) :
    fromLE ((segHeader md data).take 4) = crc32 data 0 ∧
    fromLE (((segHeader md data).drop 4).take 4) = md.version ∧
    fromLE (((segHeader md data).drop 8).take 4) = md.date ∧
    fromLE (((segHeader md data).drop 12).take 4) = data.length ∧
    fromLE (((segHeader md data).drop 16).take 4) = md.extra1 ∧
    fromLE (((segHeader md data).drop 20).take 4) = md.extra2 ∧
    fromLE (((segHeader md data).drop 24).take 4) = SEGMENT_MAGIC ∧
    (segHeader md data).drop 28 = List.replicate 228 0 := by
  have hcrc : crc32 data 0 < 0x100000000 := by
    have := crc32_data_lt data hdata
    norm_num at this ⊢
    omega
  unfold segHeader
  simp only [List.append_assoc]
  refine ⟨fromLE4_here _ _ hcrc, ?_, ?_, ?_, ?_, ?_, ?_, ?_⟩
  · rw [drop4_here]
    all_goals exact fromLE4_here _ _ hver
  · rw [show (8:Nat) = 4+4 by norm_num, ← List.drop_drop, drop4_here, drop4_here]
    all_goals exact fromLE4_here _ _ hdate
  · rw [show (12:Nat) = 4+(4+4) by norm_num, ← List.drop_drop, ← List.drop_drop,
      drop4_here, drop4_here, drop4_here]
    all_goals exact fromLE4_here _ _ hlen
  · rw [show (16:Nat) = 4+(4+(4+4)) by norm_num, ← List.drop_drop, ← List.drop_drop,
      ← List.drop_drop, drop4_here, drop4_here, drop4_here, drop4_here]
    all_goals exact fromLE4_here _ _ he1
  · rw [show (20:Nat) = 4+(4+(4+(4+4))) by norm_num, ← List.drop_drop, ← List.drop_drop,
      ← List.drop_drop, ← List.drop_drop, drop4_here, drop4_here, drop4_here,
      drop4_here, drop4_here]
    all_goals exact fromLE4_here _ _ he2
  · rw [show (24:Nat) = 4+(4+(4+(4+(4+4)))) by norm_num, ← List.drop_drop,
      ← List.drop_drop, ← List.drop_drop, ← List.drop_drop, ← List.drop_drop,
      drop4_here, drop4_here, drop4_here, drop4_here, drop4_here, drop4_here]
    all_goals exact fromLE4_here _ _ (by norm_num [SEGMENT_MAGIC])
  · rw [show (28:Nat) = 4+(4+(4+(4+(4+(4+4))))) by norm_num, ← List.drop_drop,
      ← List.drop_drop, ← List.drop_drop, ← List.drop_drop, ← List.drop_drop,
      ← List.drop_drop, drop4_here, drop4_here, drop4_here, drop4_here,
      drop4_here, drop4_here, drop4_here]

/-! ## Except helpers -/

theorem pure_ok {α : Type} (a : α) : (pure a : Except Err α) = Except.ok a := rfl

theorem ok_bind {α β : Type} (a : α) (f : α → Except Err β) :
    (Except.ok a : Except Err α) >>= f = f a := rfl

theorem error_bind {α β : Type} (e : Err) (f : α → Except Err β) :
    (Except.error e : Except Err α) >>= f = Except.error e := rfl

/-! ## Encode-side structure of the segment loop -/

theorem encodeSegs_infos_length (ps : List (SegMeta × List Nat)) (crc : Nat) :
    (encodeSegs ps crc).2.1.length = ps.length := by
  induction ps generalizing crc with
  | nil => rfl
  | cons p ps ih => simp [encodeSegs, ih]

theorem encodeSegs_append (ps qs : List (SegMeta × List Nat)) (crc : Nat) :
    encodeSegs (ps ++ qs) crc =
      ((encodeSegs ps crc).1 ++ (encodeSegs qs (encodeSegs ps crc).2.2).1,
       (encodeSegs ps crc).2.1 ++ (encodeSegs qs (encodeSegs ps crc).2.2).2.1,
       (encodeSegs qs (encodeSegs ps crc).2.2).2.2) := by
  induction ps generalizing crc with
  | nil => simp [encodeSegs]
  | cons p ps ih =>
    obtain ⟨md, data⟩ := p
    simp only [List.cons_append, encodeSegs, List.append_eq, ih, List.append_assoc]

set_option maxRecDepth 4000 in
theorem encodeSegs_isBytes (ps : List (SegMeta × List Nat)) (crc : Nat)
    (h : ∀ p ∈ ps, IsBytes p.2) : IsBytes (encodeSegs ps crc).1 := by
  induction ps generalizing crc with
  | nil => exact isBytes_nil
  | cons p ps ih =>
    obtain ⟨md, data⟩ := p
    simp only [encodeSegs]
    exact isBytes_append
      (isBytes_append (segHeader_isBytes md data)
        (h (md, data) (List.mem_cons_self (md, data) ps)))
      (ih _ (fun q hq => h q (List.mem_cons_of_mem (md, data) hq)))

theorem encodeSegs_crc_lt (ps : List (SegMeta × List Nat)) (crc : Nat)
    (hcrc : crc < 2 ^ 32) (h : ∀ p ∈ ps, IsBytes p.2) :
    (encodeSegs ps crc).2.2 < 2 ^ 32 := by
  induction ps generalizing crc with
  | nil => exact hcrc
  | cons p ps ih =>
    simp only [encodeSegs]
    exact ih _ (crc32_lt _ _ (crc32_lt _ _ hcrc (segHeader_isBytes p.1 p.2))
        (h p (List.mem_cons_self p ps)))
      (fun q hq => h q (List.mem_cons_of_mem p hq))

/-- Decoding the segments produced by the encoder loop consumes exactly the
encoded bytes and returns the original metadata and payloads together with the
final running CRC. -/
theorem decodeSegs_encodeSegs (ps : List (SegMeta × List Nat)) (tail : List Nat)
    (crc : Nat) (hcrc : crc < 2 ^ 32) (hwf : ∀ p ∈ ps, WfSeg p) :
    decodeSegs (encodeSegs ps crc).2.1 ((encodeSegs ps crc).1 ++ tail) crc =
      Except.ok (ps.map Prod.fst, ps.map Prod.snd, tail, (encodeSegs ps crc).2.2) := by
  induction ps generalizing crc with
  | nil => simp [encodeSegs, decodeSegs]; rfl
  | cons p ps ih =>
    obtain ⟨hver, hdate, he1, he2, hdata, hlen⟩ := hwf p (List.mem_cons_self p ps)
    have hlen32 : p.2.length < 0x100000000 := by omega
    have hfields := segHeader_fields p.1 p.2 hdata (by rw [hver]; norm_num [SEGMENT_VERSION])
      hdate hlen32 he1 he2
    obtain ⟨f_crc, f_ver, f_date, f_size, f_e1, f_e2, f_magic, f_pad⟩ := hfields
    have hhb : IsBytes (segHeader p.1 p.2) := segHeader_isBytes p.1 p.2
    have hcrcH : crc32 (segHeader p.1 p.2) crc < 2 ^ 32 := crc32_lt _ _ hcrc hhb
    have hcrc2 : crc32 p.2 (crc32 (segHeader p.1 p.2) crc) < 2 ^ 32 :=
      crc32_lt _ _ hcrcH hdata
    simp only [encodeSegs, decodeSegs]
    rw [List.append_assoc, List.append_assoc,
      List.take_left' (segHeader_length p.1 p.2)]
    rw [if_neg (by rw [segHeader_length]; omega)]
    rw [f_ver, f_magic, f_pad, f_size, f_crc]
    rw [validate_eq_ok hver, ok_bind, validate_eq_ok rfl, ok_bind,
      validate_padding_replicate, ok_bind]
    rw [if_pos (by omega : 256 + p.2.length ≠ 0)]
    rw [validate_eq_ok (by omega : 256 + p.2.length = p.2.length + 256), ok_bind]
    rw [List.drop_left' (segHeader_length p.1 p.2), List.take_left]
    rw [validate_eq_ok rfl, ok_bind, validate_eq_ok rfl, ok_bind]
    rw [List.drop_left]
    rw [ih _ hcrc2 (fun q hq => hwf q (List.mem_cons_of_mem p hq)), ok_bind]
    rw [f_date, f_e1, f_e2]
    rfl

/-! ## Slot table lemmas -/

theorem slotBytes_length (p : Nat × Nat) : (slotBytes p).length = 8 := by
  simp [slotBytes, toLE_length]

theorem slotBytes_isBytes (p : Nat × Nat) : IsBytes (slotBytes p) :=
  isBytes_append (toLE_isBytes 4 p.1) (toLE_isBytes 4 p.2)

theorem slotsFlatten_length (sl : List (Nat × Nat)) :
    ((sl.map slotBytes).flatten).length = 8 * sl.length := by
  induction sl with
  | nil => rfl
  | cons p sl ih =>
    simp only [List.map_cons, List.flatten_cons, List.length_append,
      slotBytes_length, ih, List.length_cons]
    ring

theorem slotsFlatten_isBytes (sl : List (Nat × Nat)) :
    IsBytes ((sl.map slotBytes).flatten) := by
  induction sl with
  | nil => exact isBytes_nil
  | cons p sl ih =>
    simp only [List.map_cons, List.flatten_cons]
    exact isBytes_append (slotBytes_isBytes p) ih

/-- Parsing back an emitted slot table recovers the slots. -/
theorem parseSlotsN_flatten (sl : List (Nat × Nat)) (tail : List Nat)
    (hb : ∀ q ∈ sl, q.1 < 0x100000000 ∧ q.2 < 0x100000000) :
    parseSlotsN sl.length ((sl.map slotBytes).flatten ++ tail) = sl := by
  induction sl with
  | nil => rfl
  | cons p sl ih =>
    obtain ⟨h1, h2⟩ := hb p (List.mem_cons_self p sl)
    simp only [List.map_cons, List.flatten_cons, List.length_cons, parseSlotsN]
    rw [slotBytes, List.append_assoc, List.append_assoc]
    rw [fromLE4_here _ _ h1, drop4_here, fromLE4_here _ _ h2]
    rw [show (8 : Nat) = 4 + 4 by norm_num, ← List.drop_drop, drop4_here, drop4_here]
    rw [ih (fun q hq => hb q (List.mem_cons_of_mem p hq))]

/-! ## Trimming lemmas -/

theorem trimSlots_append_replicate (xs : List (Nat × Nat)) (k : Nat) :
    trimSlots (xs ++ List.replicate k ((0 : Nat), (0 : Nat))) = trimSlots xs := by
  unfold trimSlots
  rw [List.reverse_append, List.reverse_replicate]
  congr 1
  induction k with
  | zero => simp
  | succ k ih =>
    rw [List.replicate_succ, List.cons_append, List.dropWhile_cons_of_pos (by simp)]
    exact ih

theorem trimSlots_getLast_ne (xs : List (Nat × Nat)) (a : Nat × Nat)
    (h : xs.getLast? = some a) (ha : a ≠ (0, 0)) : trimSlots xs = xs := by
  unfold trimSlots
  have hrev : xs.reverse.head? = some a := by
    rw [List.head?_reverse]; exact h
  cases hx : xs.reverse with
  | nil => rw [hx] at hrev; simp at hrev
  | cons y ys =>
    rw [hx] at hrev
    simp only [List.head?_cons, Option.some_inj] at hrev
    rw [List.dropWhile_cons_of_neg (by simp only [hrev, decide_eq_true_eq]; exact ha)]
    rw [← hx, List.reverse_reverse]

theorem zeroLastSize_length (l : List (Nat × Nat)) : (zeroLastSize l).length = l.length := by
  induction l with
  | nil => rfl
  | cons p rest ih =>
    cases rest with
    | nil => rfl
    | cons q t => simp only [zeroLastSize, List.length_cons] at ih ⊢; omega

theorem zeroLastSize_cons_of_ne_nil (p : Nat × Nat) (rest : List (Nat × Nat))
    (h : rest ≠ []) : zeroLastSize (p :: rest) = p :: zeroLastSize rest := by
  cases rest with
  | nil => exact absurd rfl h
  | cons q t => rfl

theorem encodeSegs_ne_nil (p : SegMeta × List Nat) (ps : List (SegMeta × List Nat))
    (crc : Nat) : (encodeSegs (p :: ps) crc).2.1 ≠ [] := by
  obtain ⟨md, data⟩ := p
  simp [encodeSegs]

/-- Same as `decodeSegs_encodeSegs` but for the slot table actually emitted by
`_encode_body`, i.e. with the last slot's size zeroed: the decoder then skips
the size cross-check for that slot and everything else goes through. -/
theorem decodeSegs_encodeSegs_zeroLast (ps : List (SegMeta × List Nat))
    (tail : List Nat) (crc : Nat) (hcrc : crc < 2 ^ 32) (hwf : ∀ p ∈ ps, WfSeg p) :
    decodeSegs (zeroLastSize (encodeSegs ps crc).2.1) ((encodeSegs ps crc).1 ++ tail) crc =
      Except.ok (ps.map Prod.fst, ps.map Prod.snd, tail, (encodeSegs ps crc).2.2) := by
  induction ps generalizing crc with
  | nil => simp [encodeSegs, decodeSegs, zeroLastSize]; rfl
  | cons p ps ih =>
    obtain ⟨hver, hdate, he1, he2, hdata, hlen⟩ := hwf p (List.mem_cons_self p ps)
    have hlen32 : p.2.length < 0x100000000 := by omega
    have hfields := segHeader_fields p.1 p.2 hdata (by rw [hver]; norm_num [SEGMENT_VERSION])
      hdate hlen32 he1 he2
    obtain ⟨f_crc, f_ver, f_date, f_size, f_e1, f_e2, f_magic, f_pad⟩ := hfields
    have hhb : IsBytes (segHeader p.1 p.2) := segHeader_isBytes p.1 p.2
    have hcrcH : crc32 (segHeader p.1 p.2) crc < 2 ^ 32 := crc32_lt _ _ hcrc hhb
    have hcrc2 : crc32 p.2 (crc32 (segHeader p.1 p.2) crc) < 2 ^ 32 :=
      crc32_lt _ _ hcrcH hdata
    cases ps with
    | nil =>
      simp only [encodeSegs, zeroLastSize, decodeSegs]
      rw [List.append_nil, List.append_assoc,
        List.take_left' (segHeader_length p.1 p.2)]
      rw [if_neg (by rw [segHeader_length]; omega)]
      rw [f_ver, f_magic, f_pad, f_size, f_crc]
      rw [validate_eq_ok hver, ok_bind, validate_eq_ok rfl, ok_bind,
        validate_padding_replicate, ok_bind]
      rw [if_neg (by omega : ¬((0 : Nat) ≠ 0))]
      rw [List.drop_left' (segHeader_length p.1 p.2), List.take_left]
      rw [validate_eq_ok rfl, ok_bind, validate_eq_ok rfl, ok_bind]
      rw [List.drop_left]
      rw [f_date, f_e1, f_e2]
      rfl
    | cons q qs =>
      rw [show encodeSegs (p :: q :: qs) crc =
          (segHeader p.1 p.2 ++ p.2 ++ (encodeSegs (q :: qs)
              (crc32 p.2 (crc32 (segHeader p.1 p.2) crc))).1,
            (256 + p.2.length, 0xFFFFFFFF - crc32 p.2 (crc32 (segHeader p.1 p.2) crc)) ::
              (encodeSegs (q :: qs) (crc32 p.2 (crc32 (segHeader p.1 p.2) crc))).2.1,
            (encodeSegs (q :: qs) (crc32 p.2 (crc32 (segHeader p.1 p.2) crc))).2.2)
          from by simp only [encodeSegs]]
      rw [zeroLastSize_cons_of_ne_nil _ _ (encodeSegs_ne_nil q qs _)]
      simp only [decodeSegs]
      rw [List.append_assoc, List.append_assoc,
        List.take_left' (segHeader_length p.1 p.2)]
      rw [if_neg (by rw [segHeader_length]; omega)]
      rw [f_ver, f_magic, f_pad, f_size, f_crc]
      rw [validate_eq_ok hver, ok_bind, validate_eq_ok rfl, ok_bind,
        validate_padding_replicate, ok_bind]
      rw [if_pos (by omega : 256 + p.2.length ≠ 0)]
      rw [validate_eq_ok (by omega : 256 + p.2.length = p.2.length + 256), ok_bind]
      rw [List.drop_left' (segHeader_length p.1 p.2), List.take_left]
      rw [validate_eq_ok rfl, ok_bind, validate_eq_ok rfl, ok_bind]
      rw [List.drop_left]
      rw [ih _ hcrc2 (fun r hr => hwf r (List.mem_cons_of_mem p hr)), ok_bind]
      rw [f_date, f_e1, f_e2]
      rfl

/-! ## Reduction of `_decode_body` past the fixed header -/

/-- If the fixed 48-byte header is well-formed and at least the slot table is
present, `_decode_body` reduces to the tail computation. -/
theorem decode_body_reduce (buf : List Nat) (h176 : 176 ≤ buf.length)
    (hz1 : buf.take 32 = List.replicate 32 0)
    (hmagic : fromLE ((buf.drop 32).take 4) = HEADER_MAGIC)
    (hz2 : (buf.drop 40).take 8 = List.replicate 8 0) :
    decode_body buf = decodeBodyTail (buf.drop 48) (fromLE ((buf.drop 36).take 4)) := by
  simp only [decode_body, decodeBodyTail]
  rw [List.take_take, show (32 : Nat) ⊓ 48 = 32 by norm_num]
  rw [List.drop_take, show (48 : Nat) - 32 = 16 by norm_num,
    List.take_take, show (4 : Nat) ⊓ 16 = 4 by norm_num]
  rw [show ((buf.take 48).drop 36) = (buf.drop 36).take 12 from by
    rw [List.drop_take]]
  rw [List.take_take, show (4 : Nat) ⊓ 12 = 4 by norm_num]
  rw [show ((buf.take 48).drop 40) = (buf.drop 40).take 8 from by
    rw [List.drop_take]]
  rw [List.take_take, show (8 : Nat) ⊓ 8 = 8 by norm_num]
  rw [if_neg (by rw [List.length_take_of_le (by omega)]; omega)]
  rw [hz1, hz2, hmagic, validate_padding_replicate, ok_bind,
    validate_eq_ok rfl, ok_bind, validate_padding_replicate, ok_bind]
  rw [if_neg (by rw [List.length_drop]; omega)]

/-! ## `_encode_body` success path and slot-table facts -/

/-- On inputs passing the length check with at least one segment,
`_encode_body` returns its assembled buffer. -/
theorem encode_body_eq (md : BodyMeta) (pl : List (List Nat))
    (hlen : md.segments.length = pl.length) (hne : pl ≠ []) :
    encode_body md pl = Except.ok
      (List.replicate 32 0 ++ toLE 4 HEADER_MAGIC
          ++ toLE 4 (encodeSegs (md.segments.zip pl) 0).2.2 ++ List.replicate 8 0
        ++ (((zeroLastSize (encodeSegs (md.segments.zip pl) 0).2.1
              ++ List.replicate
                (16 - (zeroLastSize (encodeSegs (md.segments.zip pl) 0).2.1).length)
                (0, 0)).take 16).map slotBytes).flatten
        ++ md.header_extra ++ (encodeSegs (md.segments.zip pl) 0).1) := by
  have hz : md.segments.zip pl ≠ [] := by
    cases pl with
    | nil => exact absurd rfl hne
    | cons x xs =>
      cases hseg : md.segments with
      | nil => rw [hseg] at hlen; simp at hlen
      | cons s ss => simp [List.zip]
  simp only [encode_body]
  rw [validate_eq_ok hlen, ok_bind]
  rw [if_neg (by
    cases hz2 : md.segments.zip pl with
    | nil => exact absurd hz2 hz
    | cons p ps => exact encodeSegs_ne_nil p ps 0)]
  rfl

theorem encodeSegs_infos_bound (ps : List (SegMeta × List Nat)) (crc : Nat)
    (hwf : ∀ p ∈ ps, 256 + p.2.length < 0x100000000) :
    ∀ q ∈ (encodeSegs ps crc).2.1, q.1 < 0x100000000 ∧ q.2 < 0x100000000 := by
  induction ps generalizing crc with
  | nil => intro q hq; simp [encodeSegs] at hq
  | cons p ps ih =>
    intro q hq
    obtain ⟨md, data⟩ := p
    simp only [encodeSegs, List.mem_cons] at hq
    rcases hq with h | h
    · subst h
      refine ⟨hwf (md, data) (List.mem_cons_self _ _), ?_⟩
      have : 0xFFFFFFFF - crc32 data (crc32 (segHeader md data) crc) ≤ 0xFFFFFFFF :=
        Nat.sub_le _ _
      omega
    · exact ih _ (fun r hr => hwf r (List.mem_cons_of_mem _ hr)) q h

theorem zeroLastSize_bound (l : List (Nat × Nat))
    (h : ∀ q ∈ l, q.1 < 0x100000000 ∧ q.2 < 0x100000000) :
    ∀ q ∈ zeroLastSize l, q.1 < 0x100000000 ∧ q.2 < 0x100000000 := by
  induction l with
  | nil => intro q hq; simp [zeroLastSize] at hq
  | cons p rest ih =>
    intro q hq
    cases rest with
    | nil =>
      simp only [zeroLastSize, List.mem_singleton] at hq
      subst hq
      exact ⟨by norm_num, (h p (List.mem_cons_self p [])).2⟩
    | cons r t =>
      rw [zeroLastSize_cons_of_ne_nil p (r :: t) (by simp)] at hq
      rcases List.mem_cons.mp hq with hh | hh
      · subst hh; exact h q (List.mem_cons_self q _)
      · exact ih (fun x hx => h x (List.mem_cons_of_mem p hx)) q hh

theorem getLast?_cons_of_ne_nil {α : Type} (a : α) (l : List α) (h : l ≠ []) :
    (a :: l).getLast? = l.getLast? := by
  cases l with
  | nil => exact absurd rfl h
  | cons b t => exact List.getLast?_cons_cons

theorem encodeSegs_getLast (ps : List (SegMeta × List Nat)) (crc : Nat) :
    ((encodeSegs ps crc).2.1).getLast? =
      ps.getLast?.map (fun p => (256 + p.2.length, 0xFFFFFFFF - (encodeSegs ps crc).2.2)) := by
  induction ps generalizing crc with
  | nil => rfl
  | cons p ps ih =>
    obtain ⟨md, data⟩ := p
    cases ps with
    | nil => simp [encodeSegs]
    | cons q qs =>
      have hne : (encodeSegs (q :: qs) (crc32 data (crc32 (segHeader md data) crc))).2.1 ≠ [] :=
        encodeSegs_ne_nil q qs _
      rw [show encodeSegs ((md, data) :: q :: qs) crc =
          (segHeader md data ++ data
              ++ (encodeSegs (q :: qs) (crc32 data (crc32 (segHeader md data) crc))).1,
            (256 + data.length, 0xFFFFFFFF - crc32 data (crc32 (segHeader md data) crc)) ::
              (encodeSegs (q :: qs) (crc32 data (crc32 (segHeader md data) crc))).2.1,
            (encodeSegs (q :: qs) (crc32 data (crc32 (segHeader md data) crc))).2.2)
          from by simp only [encodeSegs]]
      rw [getLast?_cons_of_ne_nil _ _ hne, ih, List.getLast?_cons_cons]

theorem zeroLastSize_getLast (l : List (Nat × Nat)) :
    (zeroLastSize l).getLast? = l.getLast?.map (fun p => ((0 : Nat), p.2)) := by
  induction l with
  | nil => rfl
  | cons p rest ih =>
    cases rest with
    | nil => simp [zeroLastSize]
    | cons r t =>
      rw [zeroLastSize_cons_of_ne_nil p (r :: t) (by simp)]
      have hnn : zeroLastSize (r :: t) ≠ [] := by
        intro hc
        have hl := zeroLastSize_length (r :: t)
        rw [hc] at hl
        simp at hl
      rw [getLast?_cons_of_ne_nil _ _ hnn, ih, List.getLast?_cons_cons]

/-! ## Body encode-then-decode -/

theorem decode_encode_body (md : BodyMeta) (pl : List (List Nat))
    (h6 : md.segments.length = 6) (hp6 : pl.length = 6)
    (hwf : ∀ p ∈ md.segments.zip pl, WfSeg p)
    (hextra : md.header_extra.length = 0x180)
    (hcomp : 0xFFFFFFFF - (encodeSegs (md.segments.zip pl) 0).2.2 ≠ 0)
    (out : List Nat) (hout : encode_body md pl = Except.ok out) :
    decode_body out = Except.ok (md, pl) := by
  have hlen : md.segments.length = pl.length := by omega
  have hne : pl ≠ [] := by intro h; rw [h] at hp6; simp at hp6
  rw [encode_body_eq md pl hlen hne] at hout
  have hout2 := (Except.ok.injEq _ _).mp hout.symm
  subst hout2
  have hzplen : (md.segments.zip pl).length = 6 := by
    rw [List.length_zip, h6, hp6]; norm_num
  have hinfol : ((encodeSegs (md.segments.zip pl) 0).2.1).length = 6 := by
    rw [encodeSegs_infos_length, hzplen]
  have hzll : (zeroLastSize (encodeSegs (md.segments.zip pl) 0).2.1).length = 6 := by
    rw [zeroLastSize_length, hinfol]
  have hbytes : ∀ p ∈ md.segments.zip pl, IsBytes p.2 := by
    intro p hp
    exact (hwf p hp).2.2.2.2.1
  have hEcrc : (encodeSegs (md.segments.zip pl) 0).2.2 < 2 ^ 32 :=
    encodeSegs_crc_lt _ _ (by norm_num) hbytes
  have hEcrc32 : (encodeSegs (md.segments.zip pl) 0).2.2 < 0x100000000 := by
    norm_num at hEcrc ⊢; omega
  -- abbreviations
  set E := encodeSegs (md.segments.zip pl) 0 with hE
  set zl := zeroLastSize E.2.1 with hzl
  set padded := zl ++ List.replicate (16 - zl.length) ((0 : Nat), (0 : Nat)) with hpadded
  set flat := ((padded.take 16).map slotBytes).flatten with hflat
  have hpadlen : padded.length = 16 := by
    rw [hpadded, List.length_append, List.length_replicate, hzll]
  have htake16 : padded.take 16 = padded := by
    rw [List.take_of_length_le (le_of_eq hpadlen)]
  have hflatlen : flat.length = 128 := by
    rw [hflat, htake16, slotsFlatten_length, hpadlen]
  -- the output, right-associated
  have hshape : List.replicate 32 0 ++ toLE 4 HEADER_MAGIC ++ toLE 4 E.2.2
      ++ List.replicate 8 0 ++ flat ++ md.header_extra ++ E.1
      = List.replicate 32 0 ++ (toLE 4 HEADER_MAGIC ++ (toLE 4 E.2.2
        ++ (List.replicate 8 0 ++ (flat ++ (md.header_extra ++ E.1))))) := by
    simp [List.append_assoc]
  rw [hshape]
  set out2 := List.replicate 32 0 ++ (toLE 4 HEADER_MAGIC ++ (toLE 4 E.2.2
      ++ (List.replicate 8 0 ++ (flat ++ (md.header_extra ++ E.1))))) with hout2d
  have hd32 : out2.drop 32 = toLE 4 HEADER_MAGIC ++ (toLE 4 E.2.2
      ++ (List.replicate 8 0 ++ (flat ++ (md.header_extra ++ E.1)))) := by
    rw [hout2d]; exact List.drop_left' (List.length_replicate 32 0)
  have hd36 : out2.drop 36 = toLE 4 E.2.2
      ++ (List.replicate 8 0 ++ (flat ++ (md.header_extra ++ E.1))) := by
    have e1 : (out2.drop 32).drop 4 = out2.drop 36 := by
      rw [List.drop_drop]
    rw [← e1, hd32, drop4_here]
  have hd40 : out2.drop 40 = List.replicate 8 0 ++ (flat ++ (md.header_extra ++ E.1)) := by
    have e1 : (out2.drop 36).drop 4 = out2.drop 40 := by
      rw [List.drop_drop]
    rw [← e1, hd36, drop4_here]
  have hd48 : out2.drop 48 = flat ++ (md.header_extra ++ E.1) := by
    have e1 : (out2.drop 40).drop 8 = out2.drop 48 := by
      rw [List.drop_drop]
    rw [← e1, hd40]
    exact List.drop_left' (List.length_replicate 8 0)
  have hlength : 176 ≤ out2.length := by
    rw [hout2d]
    simp only [List.length_append, List.length_replicate, toLE_length, hflatlen]
    omega
  have hz1 : out2.take 32 = List.replicate 32 0 := by
    rw [hout2d]; exact List.take_left' (List.length_replicate 32 0)
  have hmagic : fromLE ((out2.drop 32).take 4) = HEADER_MAGIC := by
    rw [hd32]; exact fromLE4_here _ _ (by norm_num [HEADER_MAGIC])
  have hz2 : (out2.drop 40).take 8 = List.replicate 8 0 := by
    rw [hd40]; exact List.take_left' (List.length_replicate 8 0)
  have hcrcv : fromLE ((out2.drop 36).take 4) = E.2.2 := by
    rw [hd36]; exact fromLE4_here _ _ hEcrc32
  rw [decode_body_reduce out2 hlength hz1 hmagic hz2, hcrcv, hd48]
  -- the tail computation
  have hbound : ∀ q ∈ padded, q.1 < 0x100000000 ∧ q.2 < 0x100000000 := by
    intro q hq
    rcases List.mem_append.mp hq with h | h
    · exact zeroLastSize_bound _ (encodeSegs_infos_bound _ _
        (fun p hp => (hwf p hp).2.2.2.2.2)) q h
    · have := List.eq_of_mem_replicate h
      subst this
      norm_num
  have hparse : parseSlots flat = padded := by
    rw [hflat, htake16]
    unfold parseSlots
    rw [show (16 : Nat) = padded.length from hpadlen.symm,
      ← List.append_nil ((padded.map slotBytes).flatten)]
    exact parseSlotsN_flatten padded [] hbound
  have hlast : zl.getLast? = some (0, 0xFFFFFFFF - E.2.2) := by
    rw [hzl, zeroLastSize_getLast, hE, encodeSegs_getLast]
    have : (md.segments.zip pl).getLast? ≠ none := by
      rw [Ne, List.getLast?_eq_none_iff]
      intro hnil
      rw [hnil] at hzplen
      simp at hzplen
    cases hlz : (md.segments.zip pl).getLast? with
    | none => exact absurd hlz this
    | some p => simp
  have htrim : trimSlots padded = zl := by
    rw [hpadded, trimSlots_append_replicate]
    exact trimSlots_getLast_ne zl _ hlast (by
      intro hc
      rw [Prod.mk.injEq] at hc
      exact hcomp hc.2)
  simp only [decodeBodyTail]
  rw [List.take_left' hflatlen, hparse, htrim, validate_eq_ok hzll, ok_bind]
  rw [List.drop_left' hflatlen, List.drop_left' hextra, List.take_left' hextra]
  have hdec := decodeSegs_encodeSegs_zeroLast (md.segments.zip pl) [] 0 (by norm_num) hwf
  rw [List.append_nil] at hdec
  rw [← hE, ← hzl] at hdec
  rw [hdec, ok_bind]
  rw [List.map_fst_zip md.segments pl (by omega), List.map_snd_zip md.segments pl (by omega)]
  rw [validate_eq_ok rfl, ok_bind, validate_eq_ok rfl, ok_bind]
  rfl

/-! ## Generic evaluation of one `decodeSegs` step -/

/-- One step of the decoder, assuming the header-shape checks pass: what is
left is the two CRC comparisons, the recursive call and the result assembly. -/
theorem decodeSegs_cons_step (s : Nat × Nat) (slots : List (Nat × Nat))
    (buf : List Nat) (crc : Nat)
    (h256 : (buf.take 256).length = 256)
    (hver : fromLE (((buf.take 256).drop 4).take 4) = SEGMENT_VERSION)
    (hmag : fromLE (((buf.take 256).drop 24).take 4) = SEGMENT_MAGIC)
    (hpad : (buf.take 256).drop 28 = List.replicate 228 0)
    (hsz : s.1 ≠ 0 → s.1 = fromLE (((buf.take 256).drop 12).take 4) + 256) :
    decodeSegs (s :: slots) buf crc = (do
      validate_eq
        (crc32 ((buf.drop 256).take (fromLE (((buf.take 256).drop 12).take 4))) 0)
        (fromLE ((buf.take 256).take 4)) "segment data crc"
      validate_eq
        (0xFFFFFFFF - crc32 ((buf.drop 256).take (fromLE (((buf.take 256).drop 12).take 4)))
          (crc32 (buf.take 256) crc)) s.2 "segment running crc"
      let r ← decodeSegs slots
        ((buf.drop 256).drop (fromLE (((buf.take 256).drop 12).take 4)))
        (crc32 ((buf.drop 256).take (fromLE (((buf.take 256).drop 12).take 4)))
          (crc32 (buf.take 256) crc))
      pure ((⟨SEGMENT_VERSION, fromLE (((buf.take 256).drop 8).take 4),
          fromLE (((buf.take 256).drop 16).take 4),
          fromLE (((buf.take 256).drop 20).take 4)⟩ : SegMeta) :: r.1,
        (buf.drop 256).take (fromLE (((buf.take 256).drop 12).take 4)) :: r.2.1,
        r.2.2)) := by
  obtain ⟨sz0, sc0⟩ := s
  simp only [decodeSegs]
  rw [if_neg (by omega)]
  rw [hver, hmag, hpad, validate_eq_ok rfl, ok_bind, validate_eq_ok rfl, ok_bind,
    validate_padding_replicate, ok_bind]
  by_cases hs0 : sz0 = 0
  · rw [if_neg (by omega)]
    try rfl
  · rw [if_pos hs0, validate_eq_ok (hsz hs0), ok_bind]
    try rfl

/-- Successful decoding of a non-empty slot list: all header checks passed and
the result is assembled from the parsed pieces.  (`sz` names the parsed header
size field.) -/
theorem decodeSegs_cons_ok (s : Nat × Nat) (slots : List (Nat × Nat))
    (buf : List Nat) (crc : Nat) (r : List SegMeta × List (List Nat) × List Nat × Nat)
    (h : decodeSegs (s :: slots) buf crc = Except.ok r) :
    (buf.take 256).length = 256 ∧
    fromLE (((buf.take 256).drop 4).take 4) = SEGMENT_VERSION ∧
    fromLE (((buf.take 256).drop 24).take 4) = SEGMENT_MAGIC ∧
    (buf.take 256).drop 28 = List.replicate 228 0 ∧
    (s.1 ≠ 0 → s.1 = fromLE (((buf.take 256).drop 12).take 4) + 256) ∧
    crc32 ((buf.drop 256).take (fromLE (((buf.take 256).drop 12).take 4))) 0 =
      fromLE ((buf.take 256).take 4) ∧
    0xFFFFFFFF - crc32 ((buf.drop 256).take (fromLE (((buf.take 256).drop 12).take 4)))
      (crc32 (buf.take 256) crc) = s.2 ∧
    ∃ r', decodeSegs slots
        ((buf.drop 256).drop (fromLE (((buf.take 256).drop 12).take 4)))
        (crc32 ((buf.drop 256).take (fromLE (((buf.take 256).drop 12).take 4)))
          (crc32 (buf.take 256) crc)) = Except.ok r' ∧
      r = ((⟨fromLE (((buf.take 256).drop 4).take 4), fromLE (((buf.take 256).drop 8).take 4),
          fromLE (((buf.take 256).drop 16).take 4),
          fromLE (((buf.take 256).drop 20).take 4)⟩ : SegMeta) :: r'.1,
        (buf.drop 256).take (fromLE (((buf.take 256).drop 12).take 4)) :: r'.2.1,
        r'.2.2) := by
  obtain ⟨sz0, sc0⟩ := s
  simp only [decodeSegs] at h
  have h256 : (buf.take 256).length = 256 := by
    by_contra hc
    rw [if_pos hc] at h
    exact Except.noConfusion h
  rw [if_neg (by omega)] at h
  cases hv1 : validate_eq (fromLE (((buf.take 256).drop 4).take 4)) SEGMENT_VERSION
      "segment version?" with
  | error e => rw [hv1, error_bind] at h; exact Except.noConfusion h
  | ok u =>
  rw [hv1, ok_bind] at h
  have hver : fromLE (((buf.take 256).drop 4).take 4) = SEGMENT_VERSION := by
    by_contra hc
    rw [validate_eq_err hc] at hv1
    exact Except.noConfusion hv1
  cases hv2 : validate_eq (fromLE (((buf.take 256).drop 24).take 4)) SEGMENT_MAGIC
      "segment magic" with
  | error e => rw [hv2, error_bind] at h; exact Except.noConfusion h
  | ok u =>
  rw [hv2, ok_bind] at h
  have hmag : fromLE (((buf.take 256).drop 24).take 4) = SEGMENT_MAGIC := by
    by_contra hc
    rw [validate_eq_err hc] at hv2
    exact Except.noConfusion hv2
  cases hv3 : validate_padding ((buf.take 256).drop 28) with
  | error e => rw [hv3, error_bind] at h; exact Except.noConfusion h
  | ok u =>
  rw [hv3, ok_bind] at h
  have hpad : (buf.take 256).drop 28 = List.replicate 228 0 := by
    have hl : ((buf.take 256).drop 28).length = 228 := by
      rw [List.length_drop, h256]
    unfold validate_padding at hv3
    by_cases hc : (buf.take 256).drop 28 =
        List.replicate ((buf.take 256).drop 28).length 0
    · rw [hc, hl]
    · rw [if_neg hc] at hv3
      exact Except.noConfusion hv3
  have hsz : sz0 ≠ 0 → sz0 = fromLE (((buf.take 256).drop 12).take 4) + 256 := by
    intro hnz
    rw [if_pos hnz] at h
    cases hv4 : validate_eq sz0 (fromLE (((buf.take 256).drop 12).take 4) + 256)
        "segment size" with
    | error e => rw [hv4, error_bind] at h; exact Except.noConfusion h
    | ok u =>
      by_contra hc
      rw [validate_eq_err hc] at hv4
      exact Except.noConfusion hv4
  have hrest : (do
      validate_eq
        (crc32 ((buf.drop 256).take (fromLE (((buf.take 256).drop 12).take 4))) 0)
        (fromLE ((buf.take 256).take 4)) "segment data crc"
      validate_eq
        (0xFFFFFFFF - crc32 ((buf.drop 256).take (fromLE (((buf.take 256).drop 12).take 4)))
          (crc32 (buf.take 256) crc)) sc0 "segment running crc"
      let r ← decodeSegs slots
        ((buf.drop 256).drop (fromLE (((buf.take 256).drop 12).take 4)))
        (crc32 ((buf.drop 256).take (fromLE (((buf.take 256).drop 12).take 4)))
          (crc32 (buf.take 256) crc))
      pure ((⟨fromLE (((buf.take 256).drop 4).take 4), fromLE (((buf.take 256).drop 8).take 4),
          fromLE (((buf.take 256).drop 16).take 4),
          fromLE (((buf.take 256).drop 20).take 4)⟩ : SegMeta) :: r.1,
        (buf.drop 256).take (fromLE (((buf.take 256).drop 12).take 4)) :: r.2.1,
        r.2.2) : Except Err _) = Except.ok r := by
    by_cases hs0 : sz0 = 0
    · rw [if_neg (by omega)] at h
      exact h
    · rw [if_pos hs0] at h
      cases hv4 : validate_eq sz0 (fromLE (((buf.take 256).drop 12).take 4) + 256)
          "segment size" with
      | error e => rw [hv4, error_bind] at h; exact Except.noConfusion h
      | ok u => rw [hv4, ok_bind] at h; exact h
  clear h
  cases hv5 : validate_eq
      (crc32 ((buf.drop 256).take (fromLE (((buf.take 256).drop 12).take 4))) 0)
      (fromLE ((buf.take 256).take 4)) "segment data crc" with
  | error e => rw [hv5, error_bind] at hrest; exact Except.noConfusion hrest
  | ok u =>
  rw [hv5, ok_bind] at hrest
  have hdcrc : crc32 ((buf.drop 256).take (fromLE (((buf.take 256).drop 12).take 4))) 0 =
      fromLE ((buf.take 256).take 4) := by
    by_contra hc
    rw [validate_eq_err hc] at hv5
    exact Except.noConfusion hv5
  cases hv6 : validate_eq
      (0xFFFFFFFF - crc32 ((buf.drop 256).take (fromLE (((buf.take 256).drop 12).take 4)))
        (crc32 (buf.take 256) crc)) sc0 "segment running crc" with
  | error e => rw [hv6, error_bind] at hrest; exact Except.noConfusion hrest
  | ok u =>
  rw [hv6, ok_bind] at hrest
  have hrcrc : 0xFFFFFFFF - crc32 ((buf.drop 256).take (fromLE (((buf.take 256).drop 12).take 4)))
      (crc32 (buf.take 256) crc) = sc0 := by
    by_contra hc
    rw [validate_eq_err hc] at hv6
    exact Except.noConfusion hv6
  cases hv7 : decodeSegs slots
      ((buf.drop 256).drop (fromLE (((buf.take 256).drop 12).take 4)))
      (crc32 ((buf.drop 256).take (fromLE (((buf.take 256).drop 12).take 4)))
        (crc32 (buf.take 256) crc)) with
  | error e => rw [hv7, error_bind] at hrest; exact Except.noConfusion hrest
  | ok r' =>
  rw [hv7, ok_bind] at hrest
  refine ⟨h256, hver, hmag, hpad, hsz, hdcrc, hrcrc, r', rfl, ?_⟩
  exact ((Except.ok.injEq _ _).mp hrest).symm

/-! ## Decode-side structure facts -/

/-- A successful `decodeSegs` run returns one metadata entry and one payload
per slot, and every slot before the last with a non-zero size field has size
exactly `256 +` the returned payload's length. -/
theorem decodeSegs_spec (slots : List (Nat × Nat)) (buf : List Nat) (crc : Nat)
    (r : List SegMeta × List (List Nat) × List Nat × Nat)
    (h : decodeSegs slots buf crc = Except.ok r) :
    r.1.length = slots.length ∧ r.2.1.length = slots.length ∧
    ∀ i, i + 1 < slots.length → (slots.getD i (0, 0)).1 ≠ 0 →
      (slots.getD i (0, 0)).1 = 256 + (r.2.1.getD i []).length := by
  induction slots generalizing buf crc r with
  | nil =>
    simp only [decodeSegs] at h
    have := (Except.ok.injEq _ _).mp h
    subst this
    refine ⟨rfl, rfl, ?_⟩
    intro i hi
    simp at hi
  | cons s slots ih =>
    obtain ⟨h256, hver, hmag, hpad, hsz, hdcrc, hrcrc, r', hr', hreq⟩ :=
      decodeSegs_cons_ok s slots buf crc r h
    subst hreq
    obtain ⟨ihm, ihd, ihs⟩ := ih _ _ _ hr'
    refine ⟨by simp [ihm], by simp [ihd], ?_⟩
    intro i hi hnz
    cases i with
    | zero =>
      simp only [List.getD_cons_zero] at hnz ⊢
      -- the next slot's header read succeeded, so the payload was not truncated
      have hslots_ne : slots ≠ [] := by
        intro hc
        rw [hc] at hi
        simp at hi
      have hrest256 : 256 ≤ ((buf.drop 256).drop (fromLE (((buf.take 256).drop 12).take 4))).length := by
        cases hsl : slots with
        | nil => exact absurd hsl hslots_ne
        | cons s2 slots2 =>
          rw [hsl] at hr'
          obtain ⟨h256b, _⟩ := decodeSegs_cons_ok s2 slots2 _ _ r' hr'
          have h2 := List.length_take 256
            ((buf.drop 256).drop (fromLE (((buf.take 256).drop 12).take 4)))
          rw [h256b] at h2
          have h3 := Nat.min_le_right 256
            ((buf.drop 256).drop (fromLE (((buf.take 256).drop 12).take 4))).length
          omega
      have hdlen : ((buf.drop 256).take (fromLE (((buf.take 256).drop 12).take 4))).length =
          fromLE (((buf.take 256).drop 12).take 4) := by
        rw [List.length_take]
        simp only [List.length_drop] at hrest256 ⊢
        omega
      rw [hsz hnz, hdlen]
      omega
    | succ i =>
      simp only [List.getD_cons_succ] at hnz ⊢
      exact ihs i (by simpa using hi) hnz

/-! ## Reconstruction of a parsed segment header -/

theorem slice_in_take256 (buf : List Nat) (k j : Nat) (h : k + j ≤ 256) :
    ((buf.take 256).drop k).take j = (buf.drop k).take j := by
  rw [List.drop_take, List.take_take]
  congr 1
  omega

/-- Any list splits into its seven leading 4-byte slices plus the rest. -/
theorem take256_decomp (H : List Nat) :
    H = H.take 4 ++ ((H.drop 4).take 4 ++ ((H.drop 8).take 4 ++ ((H.drop 12).take 4 ++
      ((H.drop 16).take 4 ++ ((H.drop 20).take 4 ++ ((H.drop 24).take 4 ++ H.drop 28)))))) := by
  have fold : ∀ (a : Nat) (b : Nat), a + 4 = b → (H.drop a).take 4 ++ H.drop b = H.drop a := by
    intro a b hab
    subst hab
    rw [show H.drop (a + 4) = (H.drop a).drop 4 from by rw [List.drop_drop]]
    exact List.take_append_drop 4 (H.drop a)
  conv_rhs => rw [fold 24 28 rfl, fold 20 24 rfl, fold 16 20 rfl, fold 12 16 rfl,
    fold 8 12 rfl, fold 4 8 rfl]
  rw [List.take_append_drop]

/-- A 4-byte slice of a byte list reads back to itself via `toLE`. -/
theorem toLE4_slice (l : List Nat) (k : Nat) (hb : IsBytes l) (hlen : k + 4 ≤ l.length) :
    toLE 4 (fromLE ((l.drop k).take 4)) = (l.drop k).take 4 := by
  have hslen : ((l.drop k).take 4).length = 4 := by
    rw [List.length_take, List.length_drop]
    omega
  have hsb : IsBytes ((l.drop k).take 4) := isBytes_take _ (isBytes_drop _ hb)
  have h2 := toLE_fromLE ((l.drop k).take 4) hsb
  rwa [hslen] at h2

theorem toLE4_take (l : List Nat) (hb : IsBytes l) (hlen : 4 ≤ l.length) :
    toLE 4 (fromLE (l.take 4)) = l.take 4 := by
  have h := toLE4_slice l 0 hb (by omega)
  rwa [List.drop_zero] at h

/-- If a segment header parses with the checked fields valid, re-packing the
parsed fields yields the original 256 header bytes. -/
theorem segHeader_reconstruct (buf : List Nat) (hb : IsBytes buf)
    (h256 : (buf.take 256).length = 256)
    (hmag : fromLE (((buf.take 256).drop 24).take 4) = SEGMENT_MAGIC)
    (hpad : (buf.take 256).drop 28 = List.replicate 228 0)
    (d : List Nat)
    (hdcrc : crc32 d 0 = fromLE ((buf.take 256).take 4))
    (hdlen : d.length = fromLE (((buf.take 256).drop 12).take 4)) :
    segHeader ⟨fromLE (((buf.take 256).drop 4).take 4),
        fromLE (((buf.take 256).drop 8).take 4),
        fromLE (((buf.take 256).drop 16).take 4),
        fromLE (((buf.take 256).drop 20).take 4)⟩ d = buf.take 256 := by
  have hHb : IsBytes (buf.take 256) := isBytes_take _ hb
  have hH : (buf.take 256).length = 256 := h256
  simp only [segHeader]
  simp only [List.append_assoc]
  conv_rhs => rw [take256_decomp (buf.take 256)]
  rw [hdcrc, toLE4_take _ hHb (by omega)]
  congr 1
  rw [toLE4_slice _ 4 hHb (by omega)]
  congr 1
  rw [toLE4_slice _ 8 hHb (by omega)]
  congr 1
  rw [hdlen, toLE4_slice _ 12 hHb (by omega)]
  congr 1
  rw [toLE4_slice _ 16 hHb (by omega)]
  congr 1
  rw [toLE4_slice _ 20 hHb (by omega)]
  congr 1
  rw [← hmag, toLE4_slice _ 24 hHb (by omega), hpad]

/-! ## Decode-then-encode for the segment loop -/

/-- If a buffer decodes successfully, every non-last slot has a non-zero size,
the last slot's size is zero, and the last segment header's declared size is
honest (matches the payload actually read), then re-encoding the decoded
segments reproduces exactly the consumed bytes, the slot table (after the
encoder zeroes the last size) and the final running CRC. -/
theorem decodeSegs_reencode (slots : List (Nat × Nat)) (buf : List Nat) (crc : Nat)
    (r : List SegMeta × List (List Nat) × List Nat × Nat)
    (h : decodeSegs slots buf crc = Except.ok r)
    (hbytes : IsBytes buf)
    (hnz : ∀ i, i + 1 < slots.length → (slots.getD i (0, 0)).1 ≠ 0)
    (hlz : slots ≠ [] → (slots.getLast?.getD (0, 0)).1 = 0)
    (hhonest : slots ≠ [] →
      fromLE ((buf.drop (segConsumed r.2.1.dropLast + 12)).take 4) =
        (r.2.1.getLast?.getD []).length) :
    (encodeSegs (r.1.zip r.2.1) crc).1 ++ r.2.2.1 = buf ∧
    zeroLastSize (encodeSegs (r.1.zip r.2.1) crc).2.1 = slots ∧
    (encodeSegs (r.1.zip r.2.1) crc).2.2 = r.2.2.2 := by
  induction slots generalizing buf crc r with
  | nil =>
    simp only [decodeSegs] at h
    have hre := (Except.ok.injEq _ _).mp h
    subst hre
    exact ⟨by simp [encodeSegs], rfl, rfl⟩
  | cons s slots ih =>
    obtain ⟨h256, hver, hmag, hpad, hsz, hdcrc, hrcrc, r', hr', hreq⟩ :=
      decodeSegs_cons_ok s slots buf crc r h
    subst hreq
    have hbuflen : 256 ≤ buf.length := by
      have h2 := List.length_take 256 buf
      rw [h256] at h2
      have h3 := Nat.min_le_right 256 buf.length
      omega
    have hslice12 : fromLE (((buf.take 256).drop 12).take 4) =
        fromLE ((buf.drop 12).take 4) := by
      rw [slice_in_take256 buf 12 4 (by omega)]
    cases slots with
    | nil =>
      -- last (and only) segment
      simp only [decodeSegs] at hr'
      have hre' := (Except.ok.injEq _ _).mp hr'
      subst hre'
      have hhon := hhonest (by simp)
      simp only [List.dropLast_single, List.getLast?_singleton, Option.getD_some,
        segConsumed, List.map_nil, List.sum_nil, Nat.zero_add] at hhon
      have hdlen : ((buf.drop 256).take (fromLE (((buf.take 256).drop 12).take 4))).length =
          fromLE (((buf.take 256).drop 12).take 4) := by
        conv_rhs => rw [hslice12]
        exact hhon.symm
      have hH := segHeader_reconstruct buf hbytes h256 hmag hpad _ hdcrc hdlen
      have hlast := hlz (by simp)
      simp only [List.getLast?_singleton, Option.getD_some] at hlast
      refine ⟨?_, ?_, ?_⟩
      · simp only [List.zip_nil_right]
        show (segHeader _ _ ++ _ ++ (encodeSegs [] _).1) ++ _ = buf
        simp only [encodeSegs]
        rw [hH, List.append_nil, List.append_assoc, List.take_append_drop,
          List.take_append_drop]
      · simp only [List.zip_nil_right]
        show zeroLastSize ((256 + _, 0xFFFFFFFF - _) :: (encodeSegs [] _).2.1) = [s]
        simp only [encodeSegs, zeroLastSize]
        rw [hH]
        have : s = (s.1, s.2) := rfl
        rw [this, hlast, ← hrcrc]
      · simp only [List.zip_nil_right]
        show (encodeSegs [(_, _)] _).2.2 = _
        simp only [encodeSegs]
        rw [hH]
    | cons s2 slots2 =>
      -- non-last head segment: the next header read pins the payload length
      have hs1 : s.1 ≠ 0 := by
        have := hnz 0 (by simp)
        simpa using this
      have hrest256 : 256 ≤
          ((buf.drop 256).drop (fromLE (((buf.take 256).drop 12).take 4))).length := by
        obtain ⟨h256b, _⟩ := decodeSegs_cons_ok s2 slots2 _ _ r' hr'
        have h2 := List.length_take 256
          ((buf.drop 256).drop (fromLE (((buf.take 256).drop 12).take 4)))
        rw [h256b] at h2
        have h3 := Nat.min_le_right 256
          ((buf.drop 256).drop (fromLE (((buf.take 256).drop 12).take 4))).length
        omega
      have hdlen : ((buf.drop 256).take (fromLE (((buf.take 256).drop 12).take 4))).length =
          fromLE (((buf.take 256).drop 12).take 4) := by
        rw [List.length_take]
        simp only [List.length_drop] at hrest256 ⊢
        omega
      have hH := segHeader_reconstruct buf hbytes h256 hmag hpad _ hdcrc hdlen
      have hr'len := decodeSegs_spec _ _ _ _ hr'
      have hr'ne : r'.2.1 ≠ [] := by
        intro hc
        rw [hc] at hr'len
        simp at hr'len
      obtain ⟨hb1, hb2, hb3⟩ := ih _ _ _ hr'
        (isBytes_drop _ (isBytes_drop _ hbytes))
        (by
          intro i hi
          have := hnz (i + 1) (by simpa using hi)
          simpa using this)
        (by
          intro _
          have := hlz (by simp)
          rwa [List.getLast?_cons_cons] at this)
        (by
          intro _
          have hhon := hhonest (by simp)
          rw [List.dropLast_cons_of_ne_nil hr'ne] at hhon
          rw [getLast?_cons_of_ne_nil _ _ hr'ne] at hhon
          have hsum : segConsumed (((buf.drop 256).take (fromLE (((buf.take 256).drop 12).take 4))) :: r'.2.1.dropLast) =
              256 + fromLE (((buf.take 256).drop 12).take 4) + segConsumed r'.2.1.dropLast := by
            simp only [segConsumed, List.map_cons, List.sum_cons, hdlen]
          rw [hsum] at hhon
          rw [show 256 + fromLE (((buf.take 256).drop 12).take 4) + segConsumed r'.2.1.dropLast + 12
              = (256 + fromLE (((buf.take 256).drop 12).take 4)) + (segConsumed r'.2.1.dropLast + 12)
            from by omega] at hhon
          rw [← List.drop_drop (segConsumed r'.2.1.dropLast + 12)
            (256 + fromLE (((buf.take 256).drop 12).take 4)) buf] at hhon
          rw [← List.drop_drop (fromLE (((buf.take 256).drop 12).take 4)) 256 buf] at hhon
          exact hhon)
      refine ⟨?_, ?_, ?_⟩
      · rw [List.zip_cons_cons]
        show (segHeader _ _ ++ _ ++ (encodeSegs (r'.1.zip r'.2.1) _).1) ++ _ = buf
        rw [hH]
        rw [List.append_assoc, List.append_assoc]
        rw [hb1, List.take_append_drop, List.take_append_drop]
      · rw [List.zip_cons_cons]
        show zeroLastSize ((256 + _, 0xFFFFFFFF - _) :: (encodeSegs (r'.1.zip r'.2.1) _).2.1) = s :: s2 :: slots2
        have hne2 : (encodeSegs (r'.1.zip r'.2.1)
            (crc32 ((buf.drop 256).take (fromLE (((buf.take 256).drop 12).take 4)))
              (crc32 (segHeader ⟨fromLE (((buf.take 256).drop 4).take 4),
                fromLE (((buf.take 256).drop 8).take 4),
                fromLE (((buf.take 256).drop 16).take 4),
                fromLE (((buf.take 256).drop 20).take 4)⟩
                ((buf.drop 256).take (fromLE (((buf.take 256).drop 12).take 4)))) crc))).2.1 ≠ [] := by
          intro hc
          rw [hH] at hc
          rw [hc] at hb2
          simp only [zeroLastSize] at hb2
          exact List.noConfusion hb2
        rw [zeroLastSize_cons_of_ne_nil _ _ hne2, hH, hb2]
        have hs : s = (s.1, s.2) := rfl
        rw [hs, hsz hs1, hdlen, ← hrcrc]
        rw [show fromLE (((buf.take 256).drop 12).take 4) + 256
            = 256 + fromLE (((buf.take 256).drop 12).take 4) from by omega]
      · rw [List.zip_cons_cons]
        show (encodeSegs ((_, _) :: r'.1.zip r'.2.1) _).2.2 = _
        simp only [encodeSegs]
        rw [hH, hb3]

/-! ## Body-level extraction and slot-table serialization -/

theorem validate_padding_eq {l : List Nat} {u : Unit}
    (h : validate_padding l = Except.ok u) : l = List.replicate l.length 0 := by
  unfold validate_padding at h
  by_cases hc : l = List.replicate l.length 0
  · exact hc
  · rw [if_neg hc] at h
    exact Except.noConfusion h

theorem parseSlotsN_length (k : Nat) (b : List Nat) : (parseSlotsN k b).length = k := by
  induction k generalizing b with
  | zero => rfl
  | succ k ih => simp [parseSlotsN, ih]

/-- Every slot table splits into its trimmed part plus trailing zero slots. -/
theorem trimSlots_decomp (l : List (Nat × Nat)) :
    l = trimSlots l ++ List.replicate (l.length - (trimSlots l).length) ((0 : Nat), (0 : Nat)) := by
  have hsplit := @List.takeWhile_append_dropWhile _
    (fun p => decide (p = ((0 : Nat), (0 : Nat)))) l.reverse
  have htw : l.reverse.takeWhile (fun p => decide (p = ((0 : Nat), (0 : Nat))))
      = List.replicate ((l.reverse.takeWhile (fun p => decide (p = ((0 : Nat), (0 : Nat))))).length)
        ((0 : Nat), (0 : Nat)) := by
    apply List.eq_replicate_of_mem
    intro b hb
    have := List.mem_takeWhile_imp hb
    simpa using this
  have hlen : (trimSlots l).length ≤ l.length := by
    unfold trimSlots
    rw [List.length_reverse, ← List.length_reverse l]
    exact (List.dropWhile_sublist _).length_le
  conv_lhs => rw [← List.reverse_reverse l, ← hsplit]
  rw [List.reverse_append, htw, List.reverse_replicate]
  unfold trimSlots
  congr 1
  have h2 : (l.reverse.takeWhile (fun p => decide (p = ((0 : Nat), (0 : Nat))))).length
      + (l.reverse.dropWhile (fun p => decide (p = ((0 : Nat), (0 : Nat))))).length
      = l.length := by
    rw [← List.length_append, hsplit, List.length_reverse]
  have h4 : (trimSlots l).length
      = (l.reverse.dropWhile (fun p => decide (p = ((0 : Nat), (0 : Nat))))).length := by
    unfold trimSlots
    exact List.length_reverse _
  rw [List.length_reverse]
  congr 1
  omega

/-- Re-serializing the parsed slot table reproduces the slot bytes. -/
theorem slots_serialize (k : Nat) (S : List Nat) (hlen : S.length = 8 * k)
    (hb : IsBytes S) : ((parseSlotsN k S).map slotBytes).flatten = S := by
  induction k generalizing S with
  | zero =>
    cases S with
    | nil => rfl
    | cons a t => simp at hlen
  | succ k ih =>
    simp only [parseSlotsN, List.map_cons, List.flatten_cons]
    rw [slotBytes]
    rw [ih (S.drop 8) (by rw [List.length_drop]; omega) (isBytes_drop _ hb)]
    simp only [List.append_assoc]
    rw [toLE4_take S hb (by omega), toLE4_slice S 4 hb (by omega)]
    rw [show S.drop 8 = (S.drop 4).drop 4 from by rw [List.drop_drop]]
    rw [List.take_append_drop, List.take_append_drop]

set_option maxHeartbeats 400000 in
/-- Extraction from a successful `_decode_body` run. -/
theorem decode_body_ok (buf : List Nat) (r : BodyMeta × List (List Nat))
    (h : decode_body buf = Except.ok r) :
    176 ≤ buf.length ∧
    buf.take 32 = List.replicate 32 0 ∧
    fromLE ((buf.drop 32).take 4) = HEADER_MAGIC ∧
    (buf.drop 40).take 8 = List.replicate 8 0 ∧
    (trimSlots (parseSlots ((buf.drop 48).take 128))).length = 6 ∧
    ∃ r', decodeSegs (trimSlots (parseSlots ((buf.drop 48).take 128)))
        (((buf.drop 48).drop 128).drop 0x180) 0 = Except.ok r' ∧
      r'.2.2.1 = [] ∧ r'.2.2.2 = fromLE ((buf.drop 36).take 4) ∧
      r = (⟨((buf.drop 48).drop 128).take 0x180, r'.1⟩, r'.2.1) := by
  have hstep := h
  simp only [decode_body] at hstep
  have h48 : (buf.take 48).length = 48 := by
    by_contra hc
    rw [if_pos hc] at hstep
    exact Except.noConfusion hstep
  have hbl48 : 48 ≤ buf.length := by
    have h2 := List.length_take 48 buf
    rw [h48] at h2
    have h3 := Nat.min_le_right 48 buf.length
    omega
  rw [if_neg (by omega)] at hstep
  cases hv1 : validate_padding ((buf.take 48).take 32) with
  | error e => rw [hv1, error_bind] at hstep; exact Except.noConfusion hstep
  | ok u =>
  rw [hv1, ok_bind] at hstep
  have hz1 : buf.take 32 = List.replicate 32 0 := by
    have h2 := validate_padding_eq hv1
    rw [List.take_take, show (32 : Nat) ⊓ 48 = 32 by norm_num] at h2
    rw [h2, List.length_take_of_le (by omega)]
  cases hv2 : validate_eq (fromLE (((buf.take 48).drop 32).take 4)) HEADER_MAGIC
      "header magic" with
  | error e => rw [hv2, error_bind] at hstep; exact Except.noConfusion hstep
  | ok u =>
  rw [hv2, ok_bind] at hstep
  have hmagic : fromLE ((buf.drop 32).take 4) = HEADER_MAGIC := by
    by_contra hc
    rw [List.drop_take, List.take_take, show (4 : Nat) ⊓ (48 - 32) = 4 by norm_num] at hv2
    rw [validate_eq_err hc] at hv2
    exact Except.noConfusion hv2
  cases hv3 : validate_padding (((buf.take 48).drop 40).take 8) with
  | error e => rw [hv3, error_bind] at hstep; exact Except.noConfusion hstep
  | ok u =>
  rw [hv3, ok_bind] at hstep
  have hz2 : (buf.drop 40).take 8 = List.replicate 8 0 := by
    have h2 := validate_padding_eq hv3
    rw [List.drop_take, List.take_take, show (8 : Nat) ⊓ (48 - 40) = 8 by norm_num] at h2
    rw [h2]
    congr 1
    rw [List.length_take, List.length_drop]
    omega
  have h128 : ¬((buf.drop 48).length < 128) := by
    by_contra hc
    rw [if_pos hc] at hstep
    exact Except.noConfusion hstep
  have hlen176 : 176 ≤ buf.length := by
    rw [List.length_drop] at h128
    omega
  rw [decode_body_reduce buf hlen176 hz1 hmagic hz2] at h
  simp only [decodeBodyTail] at h
  cases hv4 : validate_eq (trimSlots (parseSlots ((buf.drop 48).take 128))).length 6
      "number of segments" with
  | error e => rw [hv4, error_bind] at h; exact Except.noConfusion h
  | ok u =>
  rw [hv4, ok_bind] at h
  have hcount : (trimSlots (parseSlots ((buf.drop 48).take 128))).length = 6 := by
    by_contra hc
    rw [validate_eq_err hc] at hv4
    exact Except.noConfusion hv4
  cases hv5 : decodeSegs (trimSlots (parseSlots ((buf.drop 48).take 128)))
      (((buf.drop 48).drop 128).drop 0x180) 0 with
  | error e => rw [hv5, error_bind] at h; exact Except.noConfusion h
  | ok r' =>
  rw [hv5, ok_bind] at h
  cases hv6 : validate_eq r'.2.2.1 ([] : List Nat) "trailing data" with
  | error e => rw [hv6, error_bind] at h; exact Except.noConfusion h
  | ok u =>
  rw [hv6, ok_bind] at h
  have htrail : r'.2.2.1 = [] := by
    by_contra hc
    rw [validate_eq_err hc] at hv6
    exact Except.noConfusion hv6
  cases hv7 : validate_eq r'.2.2.2 (fromLE ((buf.drop 36).take 4)) "body crc" with
  | error e => rw [hv7, error_bind] at h; exact Except.noConfusion h
  | ok u =>
  rw [hv7, ok_bind] at h
  have hcrc : r'.2.2.2 = fromLE ((buf.drop 36).take 4) := by
    by_contra hc
    rw [validate_eq_err hc] at hv7
    exact Except.noConfusion hv7
  injection h with h2
  refine ⟨?_, ?_, ?_, ?_, ?_, r', ?_, ?_, ?_, ?_⟩
  · exact hlen176
  · exact hz1
  · exact hmagic
  · exact hz2
  · exact hcount
  · rfl
  · exact htrail
  · exact hcrc
  · exact h2.symm

/-- A body buffer splits into the zero block, magic, body CRC, second zero
block, slot table, extra region and segment bytes. -/
theorem buf_decomp560 (buf : List Nat) :
    buf.take 32 ++ ((buf.drop 32).take 4 ++ ((buf.drop 36).take 4 ++ ((buf.drop 40).take 8
      ++ ((buf.drop 48).take 128 ++ (((buf.drop 48).drop 128).take 0x180
        ++ buf.drop 560))))) = buf := by
  have fold : ∀ (k a b : Nat), a + k = b →
      (buf.drop a).take k ++ buf.drop b = buf.drop a := by
    intro k a b hab
    subst hab
    rw [show buf.drop (a + k) = (buf.drop a).drop k from by rw [List.drop_drop]]
    exact List.take_append_drop k (buf.drop a)
  rw [show (buf.drop 48).drop 128 = buf.drop 176 from by rw [List.drop_drop]]
  rw [fold 0x180 176 560 (by norm_num), fold 128 48 176 (by norm_num),
    fold 8 40 48 (by norm_num), fold 4 36 40 (by norm_num), fold 4 32 36 (by norm_num),
    List.take_append_drop]

/-- If a body buffer decodes successfully, every non-last trimmed slot has a
non-zero size field, the last trimmed slot's size field is zero, and the last
segment header's declared size equals the decoded last payload's length, then
re-encoding the decoded metadata and payloads reproduces the buffer exactly. -/
theorem encode_decode_body (buf : List Nat) (r : BodyMeta × List (List Nat))
    (hbytes : IsBytes buf)
    (h : decode_body buf = Except.ok r)
    (hnz : ∀ i, i + 1 < (trimSlots (parseSlots ((buf.drop 48).take 128))).length →
      ((trimSlots (parseSlots ((buf.drop 48).take 128))).getD i (0, 0)).1 ≠ 0)
    (hlz : ((trimSlots (parseSlots ((buf.drop 48).take 128))).getLast?.getD (0, 0)).1 = 0)
    (hhonest : fromLE ((buf.drop (segConsumed r.2.dropLast + 12 + 560)).take 4) =
      (r.2.getLast?.getD []).length) :
    encode_body r.1 r.2 = Except.ok buf := by
  obtain ⟨h176, hz1, hmagic, hz2, hcount, r', hv5, htrail, hcrc, hreq⟩ :=
    decode_body_ok buf r h
  have hr2 : r.2 = r'.2.1 := by rw [hreq]
  have hr1s : r.1.segments = r'.1 := by rw [hreq]
  have hr1e : r.1.header_extra = ((buf.drop 48).drop 128).take 0x180 := by rw [hreq]
  rw [hr2] at hhonest
  set S := (buf.drop 48).take 128 with hS
  set slots := trimSlots (parseSlots S) with hslots
  have hSlen : S.length = 128 := by
    rw [hS, List.length_take, List.length_drop]
    omega
  have hbuf' : ((buf.drop 48).drop 128).drop 0x180 = buf.drop 560 := by
    rw [List.drop_drop, List.drop_drop]
  have hspec := decodeSegs_spec slots _ _ r' hv5
  obtain ⟨hb1, hb2, hb3⟩ := decodeSegs_reencode slots (((buf.drop 48).drop 128).drop 0x180)
    0 r' hv5
    (by rw [hbuf']; exact isBytes_drop _ hbytes)
    hnz
    (fun _ => hlz)
    (fun _ => by
      rw [hbuf', List.drop_drop,
        show 560 + (segConsumed r'.2.1.dropLast + 12) = segConsumed r'.2.1.dropLast + 12 + 560
          from by omega]
      exact hhonest)
  rw [htrail, List.append_nil, hbuf'] at hb1
  have hlen_eq : r'.1.length = r'.2.1.length := by
    rw [hspec.1, hspec.2.1]
  have hziplen : (r'.1.zip r'.2.1).length = 6 := by
    rw [List.length_zip, hspec.1, hspec.2.1]
    omega
  have hinfne : (encodeSegs (r'.1.zip r'.2.1) 0).2.1 ≠ [] := by
    intro hc
    have hl := encodeSegs_infos_length (r'.1.zip r'.2.1) 0
    rw [hc, hziplen] at hl
    simp at hl
  have hE22 : (encodeSegs (r'.1.zip r'.2.1) 0).2.2 = fromLE ((buf.drop 36).take 4) := by
    rw [hb3, hcrc]
  have hpad : slots ++ List.replicate (16 - slots.length) ((0 : Nat), (0 : Nat))
      = parseSlots S := by
    have hd := trimSlots_decomp (parseSlots S)
    rw [← hslots] at hd
    rw [show (parseSlots S).length = 16 from parseSlotsN_length 16 S] at hd
    exact hd.symm
  have htk : (parseSlots S).take 16 = parseSlots S :=
    List.take_of_length_le (le_of_eq (parseSlotsN_length 16 S))
  simp only [encode_body]
  rw [hr1s, hr2, hr1e]
  rw [validate_eq_ok hlen_eq, ok_bind]
  rw [if_neg hinfne]
  rw [hb2, hb1, hE22, toLE4_slice buf 36 hbytes (by omega), ← hmagic,
    toLE4_slice buf 32 hbytes (by omega), hpad, htk,
    show parseSlots S = parseSlotsN 16 S from rfl,
    slots_serialize 16 S (by rw [hSlen]) (by rw [hS]; exact isBytes_take _ (isBytes_drop _ hbytes)),
    ← hz1, ← hz2]
  rw [hS]
  simp only [List.append_assoc]
  rw [buf_decomp560 buf]
  rfl

/-! ## Text and packing helpers -/

theorem packBytes_length (w : Nat) (b : List Nat) : (packBytes w b).length = w := by
  rw [packBytes, List.length_append, List.length_replicate]
  have := List.length_take w b
  omega

theorem md5_length (msg : List Nat) : (md5 msg).length = 16 := by
  simp only [md5]
  cases (chunk64 (md5Pad msg)).foldl md5Compress md5Init with
  | mk a q =>
    cases q with
    | mk b q2 =>
      cases q2 with
      | mk c d =>
        simp [List.length_append, toLE_length]

theorem md5_ne_nil (msg : List Nat) : md5 msg ≠ [] := by
  intro hc
  have := md5_length msg
  rw [hc] at this
  simp at this

theorem utf8Encode_ascii (s : List Nat) (h : ∀ b ∈ s, b < 0x80) : utf8Encode s = s := by
  induction s with
  | nil => rfl
  | cons c t ih =>
    have hc : c < 0x80 := h c (List.mem_cons_self c t)
    have ht := ih (fun b hb => h b (List.mem_cons_of_mem c hb))
    show (List.map utf8Char (c :: t)).flatten = c :: t
    rw [List.map_cons, List.flatten_cons,
      show utf8Char c = [c] from by rw [utf8Char, if_pos hc],
      show (List.map utf8Char t).flatten = t from ht]
    rfl

theorem rstripZero_append_replicate (xs : List Nat) (k : Nat) :
    rstripZero (xs ++ List.replicate k 0) = rstripZero xs := by
  unfold rstripZero
  rw [List.reverse_append, List.reverse_replicate]
  congr 1
  induction k with
  | zero => simp
  | succ k ih =>
    rw [List.replicate_succ, List.cons_append, List.dropWhile_cons_of_pos (by simp)]
    exact ih

theorem rstripZero_getLast_ne (xs : List Nat) (a : Nat)
    (h : xs.getLast? = some a) (ha : a ≠ 0) : rstripZero xs = xs := by
  unfold rstripZero
  have hrev : xs.reverse.head? = some a := by
    rw [List.head?_reverse]; exact h
  cases hx : xs.reverse with
  | nil => rw [hx] at hrev; simp at hrev
  | cons y ys =>
    rw [hx] at hrev
    simp only [List.head?_cons, Option.some_inj] at hrev
    rw [List.dropWhile_cons_of_neg (by simp only [hrev, decide_eq_true_eq]; exact ha)]
    rw [← hx, List.reverse_reverse]

/-- A byte string whose last byte is non-zero (or which is empty) is unchanged
by `rstrip(b"\x00")`. -/
theorem rstripZero_id (v : List Nat) (hlast : v.getLast?.getD 1 ≠ 0) :
    rstripZero v = v := by
  cases hv : v.getLast? with
  | none =>
    have hnil : v = [] := List.getLast?_eq_none_iff.mp hv
    rw [hnil]
    rfl
  | some a =>
    rw [hv] at hlast
    simp only [Option.getD_some] at hlast
    exact rstripZero_getLast_ne v a hv hlast

theorem rstripZero_length_le (l : List Nat) : (rstripZero l).length ≤ l.length := by
  unfold rstripZero
  rw [List.length_reverse, ← List.length_reverse l]
  exact (List.dropWhile_sublist _).length_le

/-- Every byte string splits into its zero-stripped part plus trailing zeros. -/
theorem rstripZero_decomp (l : List Nat) :
    l = rstripZero l ++ List.replicate (l.length - (rstripZero l).length) 0 := by
  have hsplit := @List.takeWhile_append_dropWhile _
    (fun b => decide (b = 0)) l.reverse
  have htw : l.reverse.takeWhile (fun b => decide (b = 0))
      = List.replicate ((l.reverse.takeWhile (fun b => decide (b = 0))).length) 0 := by
    apply List.eq_replicate_of_mem
    intro b hb
    have := List.mem_takeWhile_imp hb
    simpa using this
  conv_lhs => rw [← List.reverse_reverse l, ← hsplit]
  rw [List.reverse_append, htw, List.reverse_replicate]
  unfold rstripZero
  congr 1
  have h2 : (l.reverse.takeWhile (fun b => decide (b = 0))).length
      + (l.reverse.dropWhile (fun b => decide (b = 0))).length = l.length := by
    rw [← List.length_append, hsplit, List.length_reverse]
  have h4 : (rstripZero l).length
      = (l.reverse.dropWhile (fun b => decide (b = 0))).length := by
    unfold rstripZero
    exact List.length_reverse _
  rw [List.length_reverse]
  congr 1
  omega

/-- Packing a short, non-zero-terminated name and stripping recovers it. -/
theorem rstripZero_packBytes (v : List Nat) (w : Nat) (hlen : v.length ≤ w)
    (hlast : v.getLast?.getD 1 ≠ 0) : rstripZero (packBytes w v) = v := by
  rw [packBytes, List.take_of_length_le hlen, rstripZero_append_replicate]
  exact rstripZero_id v hlast

/-- Stripping an exactly-`w`-byte field and re-packing restores the field. -/
theorem rstripZero_repack (s : List Nat) (w : Nat) (hw : s.length = w) :
    packBytes w (rstripZero s) = s := by
  have hle : (rstripZero s).length ≤ w := by
    have := rstripZero_length_le s
    omega
  rw [packBytes, List.take_of_length_le hle]
  conv_rhs => rw [rstripZero_decomp s]
  congr 2
  omega

/-- A 100-byte trailer splits into its six packed fields. -/
theorem trailer100_decomp (t : List Nat) (h : t.length = 100) :
    t.take 4 ++ ((t.drop 4).take 32 ++ ((t.drop 36).take 32 ++ ((t.drop 68).take 16
      ++ ((t.drop 84).take 8 ++ (t.drop 92).take 8)))) = t := by
  have fold : ∀ (k a b : Nat), a + k = b →
      (t.drop a).take k ++ t.drop b = t.drop a := by
    intro k a b hab
    subst hab
    rw [show t.drop (a + k) = (t.drop a).drop k from by rw [List.drop_drop]]
    exact List.take_append_drop k (t.drop a)
  have hlast : (t.drop 92).take 8 = t.drop 92 :=
    List.take_of_length_le (by rw [List.length_drop, h])
  rw [hlast, fold 8 84 92 (by norm_num), fold 16 68 84 (by norm_num),
    fold 32 36 68 (by norm_num), fold 32 4 36 (by norm_num), List.take_append_drop]

/-! ## Trailer decode-then-encode -/

set_option maxRecDepth 4000 in
set_option maxHeartbeats 1000000 in
/-- If a firmware file decodes successfully at the trailer level and the decoded
version name is pure ASCII, then re-encoding reproduces the file byte-for-byte. -/
theorem encode_decode_trailer (buf : List Nat) (m : TrailerMeta) (data : List Nat)
    (hbytes : IsBytes buf)
    (h : decode_trailer buf = Except.ok (m, data))
    (hascii : ∀ b ∈ m.version_name, b < 0x80) :
    encode_trailer m data = buf := by
  simp only [decode_trailer] at h
  by_cases h116 : buf.length < 116
  · exfalso
    rw [if_pos h116, List.drop_length] at h
    simp only [List.take_nil, List.drop_nil] at h
    rw [validate_eq_ok (show ([] : List Nat) = [] from rfl) "trailing data", ok_bind,
      validate_eq_err (md5_ne_nil _) "final hash", error_bind] at h
    exact Except.noConfusion h
  · rw [if_neg h116] at h
    set T := (buf.drop (buf.length - 116)).take 100 with hTdef
    have hdrop116 : (buf.drop (buf.length - 116)).length = 116 := by
      rw [List.length_drop]
      omega
    have hT100 : T.length = 100 := by
      rw [hTdef, List.length_take, hdrop116]
      omega
    have hrest : ((buf.drop (buf.length - 116)).drop 100).drop 16 = [] := by
      rw [List.drop_drop, List.drop_drop]
      apply List.drop_eq_nil_of_le
      omega
    rw [hrest, validate_eq_ok (show ([] : List Nat) = [] from rfl) "trailing data",
      ok_bind] at h
    cases hv2 : validate_eq (md5 (buf.take (buf.length - 116) ++ T))
        (((buf.drop (buf.length - 116)).drop 100).take 16) "final hash" with
    | error e => rw [hv2, error_bind] at h; exact Except.noConfusion h
    | ok u =>
    rw [hv2, ok_bind] at h
    have hhash : md5 (buf.take (buf.length - 116) ++ T)
        = ((buf.drop (buf.length - 116)).drop 100).take 16 := by
      by_contra hc
      rw [validate_eq_err hc] at hv2
      exact Except.noConfusion hv2
    rw [if_neg (by simp [hT100])] at h
    cases hv3 : validate_eq (rstripZero ((T.drop 4).take 32)) onex3 "product name" with
    | error e => rw [hv3, error_bind] at h; exact Except.noConfusion h
    | ok u =>
    rw [hv3, ok_bind] at h
    have hprod : rstripZero ((T.drop 4).take 32) = onex3 := by
      by_contra hc
      rw [validate_eq_err hc] at hv3
      exact Except.noConfusion hv3
    cases hv4 : validate_eq ((T.drop 84).take 8) wfni3xno "hardware ID" with
    | error e => rw [hv4, error_bind] at h; exact Except.noConfusion h
    | ok u =>
    rw [hv4, ok_bind] at h
    have hhw : (T.drop 84).take 8 = wfni3xno := by
      by_contra hc
      rw [validate_eq_err hc] at hv4
      exact Except.noConfusion hv4
    cases hv5 : validate_eq (fromLE ((T.drop 92).take 8)) 1 "hardware revision" with
    | error e => rw [hv5, error_bind] at h; exact Except.noConfusion h
    | ok u =>
    rw [hv5, ok_bind] at h
    have hrev : fromLE ((T.drop 92).take 8) = 1 := by
      by_contra hc
      rw [validate_eq_err hc] at hv5
      exact Except.noConfusion hv5
    cases hv6 : validate_eq (fromLE (T.take 4)) (buf.take (buf.length - 116)).length
        "size without trailer" with
    | error e => rw [hv6, error_bind] at h; exact Except.noConfusion h
    | ok u =>
    rw [hv6, ok_bind] at h
    have hsize : fromLE (T.take 4) = (buf.take (buf.length - 116)).length := by
      by_contra hc
      rw [validate_eq_err hc] at hv6
      exact Except.noConfusion hv6
    cases hv7 : validate_eq (md5 (buf.take (buf.length - 116))) ((T.drop 68).take 16)
        "hash without trailer" with
    | error e => rw [hv7, error_bind] at h; exact Except.noConfusion h
    | ok u =>
    rw [hv7, ok_bind] at h
    have hbh : md5 (buf.take (buf.length - 116)) = (T.drop 68).take 16 := by
      by_contra hc
      rw [validate_eq_err hc] at hv7
      exact Except.noConfusion hv7
    rw [pure_ok] at h
    have h2 := (Except.ok.injEq _ _).mp h
    rw [Prod.mk.injEq] at h2
    obtain ⟨hm, hdata⟩ := h2
    subst hm
    subst hdata
    have hTbytes : IsBytes T := isBytes_take _ (isBytes_drop _ hbytes)
    have hs4len : ((T.drop 4).take 32).length = 32 := by
      rw [List.length_take, List.length_drop, hT100]
      omega
    have hs36len : ((T.drop 36).take 32).length = 32 := by
      rw [List.length_take, List.length_drop, hT100]
      omega
    have hs92len : ((T.drop 92).take 8).length = 8 := by
      rw [List.length_take, List.length_drop, hT100]
      omega
    have hascii' : ∀ b ∈ rstripZero ((T.drop 36).take 32), b < 0x80 := hascii
    have c1 : toLE 4 (buf.take (buf.length - 116)).length = T.take 4 := by
      rw [← hsize]
      exact toLE4_take T hTbytes (by rw [hT100]; norm_num)
    have c2 : packBytes 32 (utf8Encode (rstripZero ((T.drop 4).take 32)))
        = (T.drop 4).take 32 := by
      rw [hprod, show utf8Encode onex3 = onex3 from by decide, ← hprod]
      exact rstripZero_repack _ 32 hs4len
    have c3 : packBytes 32 (utf8Encode (rstripZero ((T.drop 36).take 32)))
        = (T.drop 36).take 32 := by
      rw [utf8Encode_ascii _ hascii']
      exact rstripZero_repack _ 32 hs36len
    have c4 : packBytes 8 (utf8Encode ((T.drop 84).take 8)) = (T.drop 84).take 8 := by
      rw [hhw]
      decide
    have c5 : toLE 8 (fromLE ((T.drop 92).take 8)) = (T.drop 92).take 8 := by
      have h5 := toLE_fromLE ((T.drop 92).take 8) (isBytes_take _ (isBytes_drop _ hTbytes))
      rwa [hs92len] at h5
    simp only [encode_trailer]
    have hTr : toLE 4 (buf.take (buf.length - 116)).length
        ++ packBytes 32 (utf8Encode (rstripZero ((T.drop 4).take 32)))
        ++ packBytes 32 (utf8Encode (rstripZero ((T.drop 36).take 32)))
        ++ md5 (buf.take (buf.length - 116))
        ++ packBytes 8 (utf8Encode ((T.drop 84).take 8))
        ++ toLE 8 (fromLE ((T.drop 92).take 8)) = T := by
      rw [c1, c2, c3, hbh, c4, c5]
      simp only [List.append_assoc]
      exact trailer100_decomp T hT100
    rw [hTr, hhash]
    have hfh : ((buf.drop (buf.length - 116)).drop 100).take 16
        = (buf.drop (buf.length - 116)).drop 100 := by
      apply List.take_of_length_le
      rw [List.length_drop, hdrop116]
    rw [hfh]
    simp only [List.append_assoc]
    rw [hTdef, List.take_append_drop, List.take_append_drop]

/-! ## Trailer encode-then-decode -/

/-- For valid trailer metadata (correct product name, hardware id and revision,
an ASCII version name of at most 32 bytes not ending in a zero byte) and a body
shorter than `2^32`, decoding the encoded file returns the metadata and body. -/
theorem decode_encode_trailer (m : TrailerMeta) (body : List Nat)
    (hprod : m.product_name = onex3)
    (hhw : m.hw_id = wfni3xno)
    (hrev : m.hw_rev = 1)
    (hascii : ∀ b ∈ m.version_name, b < 0x80)
    (hvlen : m.version_name.length ≤ 32)
    (hvlast : m.version_name.getLast?.getD 1 ≠ 0)
    (hblen : body.length < 0x100000000) :
    decode_trailer (encode_trailer m body) = Except.ok (m, body) := by
  simp only [encode_trailer, decode_trailer]
  set T : List Nat := toLE 4 body.length ++ packBytes 32 (utf8Encode m.product_name)
      ++ packBytes 32 (utf8Encode m.version_name) ++ md5 body
      ++ packBytes 8 (utf8Encode m.hw_id) ++ toLE 8 m.hw_rev with hT
  have hTlen : T.length = 100 := by
    rw [hT]
    simp only [List.length_append, toLE_length, packBytes_length, md5_length]
  have htot : (body ++ T ++ md5 (body ++ T)).length = body.length + 116 := by
    simp only [List.length_append, hTlen, md5_length]
  rw [if_neg (by rw [htot]; omega)]
  rw [show (body ++ T ++ md5 (body ++ T)).length - 116 = body.length from by
    rw [htot]
    omega]
  have hdata : (body ++ T ++ md5 (body ++ T)).take body.length = body := by
    rw [List.append_assoc]
    exact List.take_left' rfl
  have hdropB : (body ++ T ++ md5 (body ++ T)).drop body.length = T ++ md5 (body ++ T) := by
    rw [List.append_assoc]
    exact List.drop_left' rfl
  rw [hdata, hdropB, List.take_left' hTlen, List.drop_left' hTlen,
    List.take_of_length_le (le_of_eq (md5_length (body ++ T))),
    List.drop_eq_nil_of_le (le_of_eq (md5_length (body ++ T))),
    validate_eq_ok (show ([] : List Nat) = [] from rfl) "trailing data", ok_bind,
    validate_eq_ok (Eq.refl (md5 (body ++ T))) "final hash", ok_bind,
    if_neg (by simp [hTlen])]
  have hsl1 : T.drop 4 = packBytes 32 (utf8Encode m.product_name)
      ++ (packBytes 32 (utf8Encode m.version_name) ++ (md5 body
      ++ (packBytes 8 (utf8Encode m.hw_id) ++ toLE 8 m.hw_rev))) := by
    rw [hT]
    simp only [List.append_assoc]
    exact List.drop_left' (toLE_length 4 _)
  have hsl2 : T.drop 36 = packBytes 32 (utf8Encode m.version_name) ++ (md5 body
      ++ (packBytes 8 (utf8Encode m.hw_id) ++ toLE 8 m.hw_rev)) := by
    rw [show (36 : Nat) = 4 + 32 from by norm_num, ← List.drop_drop, hsl1]
    exact List.drop_left' (packBytes_length 32 _)
  have hsl3 : T.drop 68 = md5 body
      ++ (packBytes 8 (utf8Encode m.hw_id) ++ toLE 8 m.hw_rev) := by
    rw [show (68 : Nat) = 36 + 32 from by norm_num, ← List.drop_drop, hsl2]
    exact List.drop_left' (packBytes_length 32 _)
  have hsl4 : T.drop 84 = packBytes 8 (utf8Encode m.hw_id) ++ toLE 8 m.hw_rev := by
    rw [show (84 : Nat) = 68 + 16 from by norm_num, ← List.drop_drop, hsl3]
    exact List.drop_left' (md5_length _)
  have hsl5 : T.drop 92 = toLE 8 m.hw_rev := by
    rw [show (92 : Nat) = 84 + 8 from by norm_num, ← List.drop_drop, hsl4]
    exact List.drop_left' (packBytes_length 8 _)
  have f0 : T.take 4 = toLE 4 body.length := by
    rw [hT]
    simp only [List.append_assoc]
    exact List.take_left' (toLE_length 4 _)
  have f4 : (T.drop 4).take 32 = packBytes 32 (utf8Encode m.product_name) := by
    rw [hsl1]
    exact List.take_left' (packBytes_length 32 _)
  have f36 : (T.drop 36).take 32 = packBytes 32 (utf8Encode m.version_name) := by
    rw [hsl2]
    exact List.take_left' (packBytes_length 32 _)
  have f68 : (T.drop 68).take 16 = md5 body := by
    rw [hsl3]
    exact List.take_left' (md5_length _)
  have f84 : (T.drop 84).take 8 = packBytes 8 (utf8Encode m.hw_id) := by
    rw [hsl4]
    exact List.take_left' (packBytes_length 8 _)
  have f92 : (T.drop 92).take 8 = toLE 8 m.hw_rev := by
    rw [hsl5]
    exact List.take_of_length_le (le_of_eq (toLE_length 8 _))
  have hprodeq : rstripZero ((T.drop 4).take 32) = onex3 := by
    rw [f4, hprod]
    decide
  have hvereq : rstripZero ((T.drop 36).take 32) = m.version_name := by
    rw [f36, utf8Encode_ascii m.version_name hascii]
    exact rstripZero_packBytes m.version_name 32 hvlen hvlast
  have hhweq : (T.drop 84).take 8 = wfni3xno := by
    rw [f84, hhw]
    decide
  have hreveq : fromLE ((T.drop 92).take 8) = 1 := by
    rw [f92, hrev]
    decide
  have hsizeeq : fromLE (T.take 4) = body.length := by
    rw [f0, fromLE_toLE]
    exact Nat.mod_eq_of_lt (by norm_num; omega)
  rw [validate_eq_ok hprodeq "product name", ok_bind,
    validate_eq_ok hhweq "hardware ID", ok_bind,
    validate_eq_ok hreveq "hardware revision", ok_bind,
    validate_eq_ok hsizeeq "size without trailer", ok_bind,
    validate_eq_ok (show md5 body = (T.drop 68).take 16 from f68.symm)
      "hash without trailer", ok_bind]
  rw [hprodeq, hvereq, hhweq, hreveq]
  rw [← hprod, ← hhw, ← hrev]
  rfl

/-! ## Error-side facts about the validators -/

theorem validate_eq_error {α : Type} [DecidableEq α] {a b : α} {d : String} {e : Err}
    (h : validate_eq a b d = Except.error e) : e = Err.format d := by
  unfold validate_eq at h
  by_cases hc : a = b
  · rw [if_pos hc] at h
    exact Except.noConfusion h
  · rw [if_neg hc] at h
    exact ((Except.error.injEq _ _).mp h).symm

theorem validate_padding_error {l : List Nat} {e : Err}
    (h : validate_padding l = Except.error e) : e = Err.format "padding was not all zero" := by
  unfold validate_padding at h
  by_cases hc : l = List.replicate l.length 0
  · rw [if_pos hc] at h
    exact Except.noConfusion h
  · rw [if_neg hc] at h
    exact ((Except.error.injEq _ _).mp h).symm

/-! ## `List.set` slice helpers -/

theorem take_set_of_le (l : List Nat) (i n a : Nat) (h : n ≤ i) :
    (l.set i a).take n = l.take n := by
  rw [List.set_take]
  apply List.set_eq_of_length_le
  have := List.length_take n l
  omega

theorem drop_set_of_lt (l : List Nat) (i n a : Nat) (h : i < n) :
    (l.set i a).drop n = l.drop n := by
  rw [List.drop_set, if_pos h]

theorem drop_set_of_le (l : List Nat) (i n a : Nat) (h : n ≤ i) :
    (l.set i a).drop n = (l.drop n).set (i - n) a := by
  rw [List.drop_set, if_neg (by omega)]

/-! ## The segment loop never raises the count error -/

/-- The per-segment decode loop can fail in many ways, but never with the
segment-count error message: that check lives before the loop. -/
theorem decodeSegs_count_free (slots : List (Nat × Nat)) (buf : List Nat) (crc : Nat) :
    decodeSegs slots buf crc ≠ Except.error (Err.format "number of segments") := by
  induction slots generalizing buf crc with
  | nil =>
    intro hc
    exact Except.noConfusion hc
  | cons s slots ih =>
    obtain ⟨sz, sc⟩ := s
    intro hc
    simp only [decodeSegs] at hc
    by_cases h256 : ¬((buf.take 256).length = 256)
    · rw [if_pos h256] at hc
      exact Err.noConfusion ((Except.error.injEq _ _).mp hc)
    · rw [if_neg h256] at hc
      cases hv1 : validate_eq (fromLE (((buf.take 256).drop 4).take 4)) SEGMENT_VERSION
          "segment version?" with
      | error e =>
        rw [hv1, error_bind] at hc
        have h2 := (Except.error.injEq _ _).mp hc
        rw [validate_eq_error hv1] at h2
        exact absurd h2 (by decide)
      | ok u =>
      rw [hv1, ok_bind] at hc
      cases hv2 : validate_eq (fromLE (((buf.take 256).drop 24).take 4)) SEGMENT_MAGIC
          "segment magic" with
      | error e =>
        rw [hv2, error_bind] at hc
        have h2 := (Except.error.injEq _ _).mp hc
        rw [validate_eq_error hv2] at h2
        exact absurd h2 (by decide)
      | ok u =>
      rw [hv2, ok_bind] at hc
      cases hv3 : validate_padding ((buf.take 256).drop 28) with
      | error e =>
        rw [hv3, error_bind] at hc
        have h2 := (Except.error.injEq _ _).mp hc
        rw [validate_padding_error hv3] at h2
        exact absurd h2 (by decide)
      | ok u =>
      rw [hv3, ok_bind] at hc
      have hrest : (do
          validate_eq
            (crc32 ((buf.drop 256).take (fromLE (((buf.take 256).drop 12).take 4))) 0)
            (fromLE ((buf.take 256).take 4)) "segment data crc"
          validate_eq
            (0xFFFFFFFF - crc32 ((buf.drop 256).take (fromLE (((buf.take 256).drop 12).take 4)))
              (crc32 (buf.take 256) crc)) sc "segment running crc"
          let r ← decodeSegs slots
            ((buf.drop 256).drop (fromLE (((buf.take 256).drop 12).take 4)))
            (crc32 ((buf.drop 256).take (fromLE (((buf.take 256).drop 12).take 4)))
              (crc32 (buf.take 256) crc))
          pure ((⟨fromLE (((buf.take 256).drop 4).take 4), fromLE (((buf.take 256).drop 8).take 4),
              fromLE (((buf.take 256).drop 16).take 4),
              fromLE (((buf.take 256).drop 20).take 4)⟩ : SegMeta) :: r.1,
            (buf.drop 256).take (fromLE (((buf.take 256).drop 12).take 4)) :: r.2.1,
            r.2.2) : Except Err _) = Except.error (Err.format "number of segments") := by
        by_cases hs0 : sz = 0
        · rw [if_neg (by omega)] at hc
          exact hc
        · rw [if_pos hs0] at hc
          cases hv4 : validate_eq sz (fromLE (((buf.take 256).drop 12).take 4) + 256)
              "segment size" with
          | error e =>
            rw [hv4, error_bind] at hc
            have h2 := (Except.error.injEq _ _).mp hc
            rw [validate_eq_error hv4] at h2
            exact absurd h2 (by decide)
          | ok u =>
            rw [hv4, ok_bind] at hc
            exact hc
      clear hc
      cases hv5 : validate_eq
          (crc32 ((buf.drop 256).take (fromLE (((buf.take 256).drop 12).take 4))) 0)
          (fromLE ((buf.take 256).take 4)) "segment data crc" with
      | error e =>
        rw [hv5, error_bind] at hrest
        have h2 := (Except.error.injEq _ _).mp hrest
        rw [validate_eq_error hv5] at h2
        exact absurd h2 (by decide)
      | ok u =>
      rw [hv5, ok_bind] at hrest
      cases hv6 : validate_eq
          (0xFFFFFFFF - crc32 ((buf.drop 256).take (fromLE (((buf.take 256).drop 12).take 4)))
            (crc32 (buf.take 256) crc)) sc "segment running crc" with
      | error e =>
        rw [hv6, error_bind] at hrest
        have h2 := (Except.error.injEq _ _).mp hrest
        rw [validate_eq_error hv6] at h2
        exact absurd h2 (by decide)
      | ok u =>
      rw [hv6, ok_bind] at hrest
      cases hv7 : decodeSegs slots
          ((buf.drop 256).drop (fromLE (((buf.take 256).drop 12).take 4)))
          (crc32 ((buf.drop 256).take (fromLE (((buf.take 256).drop 12).take 4)))
            (crc32 (buf.take 256) crc)) with
      | error e =>
        rw [hv7, error_bind] at hrest
        have h2 := (Except.error.injEq _ _).mp hrest
        rw [h2] at hv7
        exact ih _ _ hv7
      | ok r =>
        rw [hv7, ok_bind, pure_ok] at hrest
        exact Except.noConfusion hrest

/-! ## `getD` helpers for the slot table -/

theorem replicate_getD (k i : Nat) (a : Nat × Nat) : (List.replicate k a).getD i a = a := by
  induction k generalizing i with
  | zero => simp
  | succ k ih =>
    cases i with
    | zero => simp [List.replicate_succ]
    | succ i => simp [List.replicate_succ, ih i]

theorem getD_last_of_ne_nil {α : Type} (l : List α) (d : α) (h : l ≠ []) :
    l.getD (l.length - 1) d = l.getLast?.getD d := by
  induction l with
  | nil => exact absurd rfl h
  | cons a t ih =>
    cases ht : t with
    | nil => simp
    | cons b t2 =>
      rw [← ht]
      have htne : t ≠ [] := by rw [ht]; simp
      have hlen : t.length ≠ 0 := fun hc => htne (List.length_eq_zero.mp hc)
      rw [List.length_cons, Nat.add_sub_cancel,
        show t.length = (t.length - 1) + 1 from by omega, List.getD_cons_succ,
        ih htne, getLast?_cons_of_ne_nil a t htne]

theorem zeroLastSize_getD_lt (l : List (Nat × Nat)) (i : Nat) (d : Nat × Nat)
    (h : i + 1 < l.length) : (zeroLastSize l).getD i d = l.getD i d := by
  induction l generalizing i with
  | nil => rw [List.length_nil] at h; omega
  | cons p rest ih =>
    cases rest with
    | nil => rw [List.length_cons, List.length_nil] at h; omega
    | cons q t =>
      rw [zeroLastSize_cons_of_ne_nil p (q :: t) (by simp)]
      cases i with
      | zero => simp
      | succ i =>
        simp only [List.getD_cons_succ]
        exact ih i (by simpa using h)

theorem encodeSegs_infos_getD (ps : List (SegMeta × List Nat)) (crc : Nat) (i : Nat)
    (h : i < ps.length) :
    ((encodeSegs ps crc).2.1.getD i (0, 0)).1
      = 256 + (ps.getD i (⟨0, 0, 0, 0⟩, [])).2.length := by
  induction ps generalizing crc i with
  | nil => simp at h
  | cons p ps ih =>
    obtain ⟨md, data⟩ := p
    cases i with
    | zero => simp [encodeSegs]
    | succ i =>
      simp only [encodeSegs, List.getD_cons_succ]
      exact ih _ i (by simpa using h)

theorem zip_getD_snd (l1 : List SegMeta) (l2 : List (List Nat)) (i : Nat)
    (h : i < (l1.zip l2).length) :
    ((l1.zip l2).getD i (⟨0, 0, 0, 0⟩, [])).2 = l2.getD i [] := by
  induction l1 generalizing l2 i with
  | nil => simp at h
  | cons a t1 ih =>
    cases l2 with
    | nil => simp at h
    | cons b t2 =>
      rw [List.zip_cons_cons]
      cases i with
      | zero => simp
      | succ i =>
        simp only [List.getD_cons_succ]
        exact ih t2 i (by simpa [List.zip_cons_cons] using h)

/-! ## Claim theorems (first group) -/

/-- The count check of `_decode_body`, as an iff over well-formed-prefix
buffers. -/
theorem decode_body_count_iff (buf : List Nat) (h176 : 176 ≤ buf.length)
    (hz1 : buf.take 32 = List.replicate 32 0)
    (hmagic : fromLE ((buf.drop 32).take 4) = HEADER_MAGIC)
    (hz2 : (buf.drop 40).take 8 = List.replicate 8 0) :
    decode_body buf = Except.error (Err.format "number of segments") ↔
      (trimSlots (parseSlots ((buf.drop 48).take 128))).length ≠ 6 := by
  rw [decode_body_reduce buf h176 hz1 hmagic hz2]
  simp only [decodeBodyTail]
  constructor
  · intro h hc
    rw [validate_eq_ok hc "number of segments", ok_bind] at h
    cases hv : decodeSegs (trimSlots (parseSlots ((buf.drop 48).take 128)))
        (((buf.drop 48).drop 128).drop 0x180) 0 with
    | error e =>
      rw [hv, error_bind] at h
      have h2 := (Except.error.injEq _ _).mp h
      rw [h2] at hv
      exact decodeSegs_count_free _ _ _ hv
    | ok r =>
      rw [hv, ok_bind] at h
      cases hv2 : validate_eq r.2.2.1 ([] : List Nat) "trailing data" with
      | error e =>
        rw [hv2, error_bind] at h
        have h2 := (Except.error.injEq _ _).mp h
        rw [validate_eq_error hv2] at h2
        exact absurd h2 (by decide)
      | ok u =>
      rw [hv2, ok_bind] at h
      cases hv3 : validate_eq r.2.2.2 (fromLE ((buf.drop 36).take 4)) "body crc" with
      | error e =>
        rw [hv3, error_bind] at h
        have h2 := (Except.error.injEq _ _).mp h
        rw [validate_eq_error hv3] at h2
        exact absurd h2 (by decide)
      | ok u =>
        rw [hv3, ok_bind, pure_ok] at h
        exact Except.noConfusion h
  · intro hne
    rw [validate_eq_err hne "number of segments", error_bind]

/-- C4: after trimming trailing `(0, 0)` slots from the sixteen-entry table, a
body whose fixed header is well-formed fails `_decode_body` with the
count-mismatch format error exactly when the number of remaining slots is not
six; with six slots the count error never occurs (the loop and later checks
use other messages). -/
theorem claim_C4 (buf : List Nat) (h176 : 176 ≤ buf.length)
    (hz1 : buf.take 32 = List.replicate 32 0)
    (hmagic : fromLE ((buf.drop 32).take 4) = HEADER_MAGIC)
    (hz2 : (buf.drop 40).take 8 = List.replicate 8 0) :
    decode_body buf = Except.error (Err.format "number of segments") ↔
      (trimSlots (parseSlots ((buf.drop 48).take 128))).length ≠ 6 :=
  decode_body_count_iff buf h176 hz1 hmagic hz2

set_option maxRecDepth 40000 in
theorem claim_C4_witness :
    decode_body (List.replicate 32 0 ++ toLE 4 HEADER_MAGIC ++ List.replicate 12 0
        ++ List.replicate 128 0)
      = Except.error (Err.format "number of segments") :=
  (claim_C4 _ (by decide) (by decide) (by decide) (by decide)).mpr (by decide)

/-- C10: `_encode_body` on an empty segment list passes the count check (zero
equals zero) and then fails with `IndexError` from `seg_infos[-1][0] = 0`,
which is not the `ValueError`-style format error of the validators. -/
theorem claim_C10 :
    (∀ extra : List Nat, encode_body ⟨extra, []⟩ [] = Except.error Err.indexError) ∧
    ∀ d : String, Err.indexError ≠ Err.format d := by
  exact ⟨fun extra => rfl, fun d hc => Err.noConfusion hc⟩

/-- C1: the slot cross-checks use the actual 256-byte segment header size, not
252: a successful decode of a non-zero slot forces `size = header.size + 256`,
and the encoder records `256 + payload length` in every slot it builds. -/
theorem claim_C1 :
    (∀ s slots buf crc r, decodeSegs (s :: slots) buf crc = Except.ok r → s.1 ≠ 0 →
      s.1 = fromLE (((buf.take 256).drop 12).take 4) + 256) ∧
    ∀ ps crc i, i < List.length ps →
      ((encodeSegs ps crc).2.1.getD i (0, 0)).1
        = 256 + ((ps.getD i (⟨0, 0, 0, 0⟩, [])).2.length) := by
  constructor
  · intro s slots buf crc r h hnz
    exact (decodeSegs_cons_ok s slots buf crc r h).2.2.2.2.1 hnz
  · intro ps crc i h
    exact encodeSegs_infos_getD ps crc i h

set_option maxRecDepth 100000 in
set_option maxHeartbeats 1000000 in
theorem claim_C1_counterexample :
    decodeSegs [(257, 0xFFFFFFFF - crc32 (segHeader ⟨SEGMENT_VERSION, 0, 0, 0⟩ [7] ++ [7]) 0)]
        (segHeader ⟨SEGMENT_VERSION, 0, 0, 0⟩ [7] ++ [7]) 0
      = Except.ok ([⟨SEGMENT_VERSION, 0, 0, 0⟩], [[7]], [],
          crc32 (segHeader ⟨SEGMENT_VERSION, 0, 0, 0⟩ [7] ++ [7]) 0) ∧
    (257 : Nat) ≠ 252 + 1 ∧
    ((encodeSegs [(⟨SEGMENT_VERSION, 0, 0, 0⟩, [7])] 0).2.1.getD 0 (0, 0)).1 = 257 := by
  decide

/-- C5: for at most sixteen segments the encoder's slot table, as read back
from the output buffer, has size zero in the last occupied slot, the full
`256 + payload` size in every earlier slot, and `(0, 0)` in every unused
slot. -/
theorem claim_C5 (md : BodyMeta) (pl : List (List Nat)) (out : List Nat)
    (hlen : md.segments.length = pl.length) (hne : pl ≠ []) (hn16 : pl.length ≤ 16)
    (hsz : ∀ p ∈ md.segments.zip pl, 256 + p.2.length < 0x100000000)
    (hout : encode_body md pl = Except.ok out) :
    ((parseSlots ((out.drop 48).take 128)).getD (pl.length - 1) (0, 0)).1 = 0 ∧
    (∀ i, i + 1 < pl.length →
      ((parseSlots ((out.drop 48).take 128)).getD i (0, 0)).1
        = 256 + (pl.getD i []).length) ∧
    (∀ i, pl.length ≤ i → (parseSlots ((out.drop 48).take 128)).getD i (0, 0) = (0, 0)) := by
  rw [encode_body_eq md pl hlen hne] at hout
  have hout2 := (Except.ok.injEq _ _).mp hout
  subst hout2
  set E := encodeSegs (md.segments.zip pl) 0 with hE
  set zl := zeroLastSize E.2.1 with hzl
  have hzip : (md.segments.zip pl).length = pl.length := by
    rw [List.length_zip, hlen]
    exact Nat.min_self _
  have hzll : zl.length = pl.length := by
    rw [hzl, zeroLastSize_length, hE, encodeSegs_infos_length, hzip]
  set padded := zl ++ List.replicate (16 - zl.length) ((0 : Nat), (0 : Nat)) with hpadded
  have hpadlen : padded.length = 16 := by
    rw [hpadded, List.length_append, List.length_replicate, hzll]
    omega
  have htake16 : padded.take 16 = padded := List.take_of_length_le (le_of_eq hpadlen)
  set flat := ((padded.take 16).map slotBytes).flatten with hflat
  have hflatlen : flat.length = 128 := by
    rw [hflat, htake16, slotsFlatten_length, hpadlen]
  have hslice : ((List.replicate 32 0 ++ toLE 4 HEADER_MAGIC ++ toLE 4 E.2.2
      ++ List.replicate 8 0 ++ flat ++ md.header_extra ++ E.1).drop 48).take 128 = flat := by
    simp only [List.append_assoc]
    rw [show (48 : Nat) = 32 + (4 + (4 + 8)) from by norm_num,
      ← List.drop_drop, ← List.drop_drop, ← List.drop_drop,
      List.drop_left' (List.length_replicate 32 0), drop4_here, drop4_here,
      List.drop_left' (List.length_replicate 8 0)]
    exact List.take_left' hflatlen
  rw [hslice]
  have hbound : ∀ q ∈ padded, q.1 < 0x100000000 ∧ q.2 < 0x100000000 := by
    intro q hq
    rcases List.mem_append.mp hq with h | h
    · exact zeroLastSize_bound _ (encodeSegs_infos_bound _ _ hsz) q h
    · have := List.eq_of_mem_replicate h
      subst this
      norm_num
  have hparse : parseSlots flat = padded := by
    rw [hflat, htake16]
    unfold parseSlots
    rw [show (16 : Nat) = padded.length from hpadlen.symm,
      ← List.append_nil ((padded.map slotBytes).flatten)]
    exact parseSlotsN_flatten padded [] hbound
  rw [hparse]
  have hplne : pl.length ≠ 0 := fun hc => hne (List.length_eq_zero.mp hc)
  refine ⟨?_, ?_, ?_⟩
  · have hzlne : zl ≠ [] := by
      intro hc
      rw [hc] at hzll
      exact hplne hzll.symm
    rw [hpadded, List.getD_append _ _ _ _ (by rw [hzll]; omega),
      show pl.length - 1 = zl.length - 1 from by rw [hzll],
      getD_last_of_ne_nil zl _ hzlne, hzl, zeroLastSize_getLast]
    cases hgl : E.2.1.getLast? with
    | none => simp
    | some p => simp
  · intro i hi
    rw [hpadded, List.getD_append _ _ _ _ (by rw [hzll]; omega),
      hzl, zeroLastSize_getD_lt _ _ _ (by rw [hE, encodeSegs_infos_length, hzip]; omega),
      hE, encodeSegs_infos_getD _ _ _ (by rw [hzip]; omega),
      zip_getD_snd md.segments pl i (by rw [hzip]; omega)]
  · intro i hile
    rw [hpadded, List.getD_append_right _ _ _ _ (by rw [hzll]; omega)]
    exact replicate_getD _ _ _

set_option maxRecDepth 100000 in
set_option maxHeartbeats 1000000 in
theorem claim_C5_witness :
    ((parseSlots ((exC5out.drop 48).take 128)).getD (exC5pl.length - 1) (0, 0)).1 = 0 ∧
    (∀ i, i + 1 < exC5pl.length →
      ((parseSlots ((exC5out.drop 48).take 128)).getD i (0, 0)).1
        = 256 + (exC5pl.getD i []).length) ∧
    (∀ i, exC5pl.length ≤ i →
      (parseSlots ((exC5out.drop 48).take 128)).getD i (0, 0) = (0, 0)) :=
  claim_C5 exC5md exC5pl exC5out (by decide) (by decide) (by decide) (by decide) (by decide)

set_option maxRecDepth 400000 in
set_option maxHeartbeats 4000000 in
theorem claim_C5_counterexample :
    (encode_body exC5md17 (List.replicate 17 [])).isOk = true ∧
    ∀ i : Fin 16, ((parseSlots ((exC5out17.drop 48).take 128)).getD i.1 (0, 0)).1 ≠ 0 := by
  decide

/-! ## RomFs facts -/

theorem romfs_foldl_header_length (fs : List (List Nat × List Nat))
    (acc : List Nat × List Nat) :
    ((fs.foldl romfsStep acc).1).length = acc.1.length + 76 * fs.length := by
  induction fs generalizing acc with
  | nil => simp
  | cons f t ih =>
    rw [List.foldl_cons, ih]
    simp only [romfsStep, List.length_append, packBytes_length, toLE_length,
      List.length_cons]
    ring

/-- The romfs directory grows by exactly 76 bytes per file from its 8-byte
preamble, whatever the file names and contents are. -/
theorem romfsCore_header_length (files : List (List Nat × List Nat)) :
    (romfsCore files).1.length = 8 + 76 * files.length := by
  rw [romfsCore, romfs_foldl_header_length]
  simp only [List.length_append, toLE_length]

/-- When both packed integer fields fit 32 bits, the monadic loop step is the
pure `romfsStep`. -/
theorem romfsStepE_ok (acc f : List Nat × List Nat)
    (h1 : f.2.length < 2 ^ 32) (h2 : acc.2.length + ROMFS_HEADER_LEN < 2 ^ 32) :
    romfsStepE acc f = Except.ok (romfsStep acc f) := by
  simp only [romfsStepE, packU4, if_pos h1, if_pos h2, ok_bind]
  rfl

/-- The data region after one pure step, spelled as `romfsInRange` advances
its cursor. -/
theorem romfsStep_data_length (acc f : List Nat × List Nat) :
    (romfsStep acc f).2.length = (acc.2.length + f.2.length)
      + (ROMFS_BLOCK_LEN - (acc.2.length + f.2.length) % ROMFS_BLOCK_LEN) := by
  simp only [romfsStep, List.length_append, List.length_replicate]

/-- The monadic `encode_romfs` loop agrees with the pure fold whenever every
pack field along the way is in 32-bit range. -/
theorem romfs_foldlM_ok (fs : List (List Nat × List Nat))
    (acc : List Nat × List Nat) (h : romfsInRange acc.2.length fs = true) :
    fs.foldlM romfsStepE acc = Except.ok (fs.foldl romfsStep acc) := by
  induction fs generalizing acc with
  | nil => rfl
  | cons f t ih =>
    simp only [romfsInRange, Bool.and_eq_true, decide_eq_true_eq] at h
    obtain ⟨⟨h1, h2⟩, h3⟩ := h
    rw [List.foldlM_cons, romfsStepE_ok acc f h1 h2, ok_bind, List.foldl_cons]
    apply ih
    rw [romfsStep_data_length]
    exact h3

/-- With all pack fields in range, `encode_romfs` is the pure directory/data
computation followed by the directory-size assertion. -/
theorem encode_romfs_inRange (files : List (List Nat × List Nat))
    (hr : romfsInRange 0 files = true) (hc : files.length < 2 ^ 32) :
    encode_romfs files =
      if (romfsCore files).1.length < ROMFS_HEADER_LEN then
        Except.ok ((romfsCore files).1
          ++ List.replicate (ROMFS_HEADER_LEN - (romfsCore files).1.length) 0
          ++ (romfsCore files).2)
      else Except.error Err.assertionError := by
  simp only [encode_romfs, packU4, if_pos hc, ok_bind]
  rw [romfs_foldlM_ok files _ (by simpa using hr), ok_bind]
  simp only [romfsCore, pure_ok]

/-- C6: every `romfsStep` leaves the data cursor block-aligned, but the
padding it appends is `2048 - len % 2048` bytes, which is a full block — not
zero bytes — whenever the cursor is already aligned. -/
theorem claim_C6 :
    (∀ acc f : List Nat × List Nat,
      ((romfsStep acc f).2).length % ROMFS_BLOCK_LEN = 0) ∧
    (∀ acc f : List Nat × List Nat, (acc.2 ++ f.2).length % ROMFS_BLOCK_LEN = 0 →
      (romfsStep acc f).2 = (acc.2 ++ f.2) ++ List.replicate ROMFS_BLOCK_LEN 0) := by
  constructor
  · intro acc f
    simp only [romfsStep, List.length_append, List.length_replicate, ROMFS_BLOCK_LEN]
    have h1 : (acc.2.length + f.2.length) % 2048 < 2048 := Nat.mod_lt _ (by norm_num)
    omega
  · intro acc f h
    simp only [List.length_append, ROMFS_BLOCK_LEN] at h
    simp only [romfsStep, List.length_append, ROMFS_BLOCK_LEN, h, Nat.sub_zero]

theorem claim_C6_counterexample :
    (romfsCore [([97], [])]).2.length = 2048 ∧
    (encode_romfs [([97], [])]).isOk = true ∧
    (2048 : Nat) ≠ 0 := by
  refine ⟨?_, ?_, by norm_num⟩
  · rw [show (romfsCore [([97], [])]).2 = List.replicate 2048 0 from by
      unfold romfsCore
      simp only [List.foldl_cons, List.foldl_nil]
      unfold romfsStep
      simp only [List.nil_append, List.length_nil]
      congr 1]
    exact List.length_replicate _ _
  · rw [encode_romfs_inRange _ (by decide) (by decide)]
    rw [if_pos (by rw [romfsCore_header_length]; decide)]
    rfl

/-- C7 (corrected): under the `struct.pack` range side conditions — fewer
than `2 ^ 32` files, every file length and every data offset below `2 ^ 32`
— the romfs directory is `8 + 76 n` bytes; when that fits strictly below the
fixed `0xA000` header region, encode succeeds and zero-pads the directory
region to exactly `0xA000` bytes; otherwise the assertion fails and no
archive is produced. -/
theorem claim_C7 (files : List (List Nat × List Nat))
    (hr : romfsInRange 0 files = true) (hc : files.length < 2 ^ 32) :
    (romfsCore files).1.length = 8 + 76 * files.length ∧
    (8 + 76 * files.length < ROMFS_HEADER_LEN →
      encode_romfs files = Except.ok ((romfsCore files).1
        ++ List.replicate (ROMFS_HEADER_LEN - (romfsCore files).1.length) 0
        ++ (romfsCore files).2) ∧
      ((romfsCore files).1
        ++ List.replicate (ROMFS_HEADER_LEN - (romfsCore files).1.length) 0).length
          = ROMFS_HEADER_LEN) ∧
    (ROMFS_HEADER_LEN ≤ 8 + 76 * files.length →
      encode_romfs files = Except.error Err.assertionError) := by
  have hlen := romfsCore_header_length files
  have he := encode_romfs_inRange files hr hc
  refine ⟨hlen, ?_, ?_⟩
  · intro h
    constructor
    · rw [he, if_pos (by rw [hlen]; exact h)]
    · rw [List.length_append, List.length_replicate, hlen]
      simp only [ROMFS_HEADER_LEN] at h ⊢
      omega
  · intro h
    rw [he, if_neg (by rw [hlen]; omega)]

/-- Concrete instance of C7: one file named `b` with a single content byte
satisfies the range side conditions, and encode succeeds. -/
theorem claim_C7_witness :
    romfsInRange 0 [([98], [1])] = true ∧
    ([([98], [1])] : List (List Nat × List Nat)).length < 2 ^ 32 ∧
    (encode_romfs [([98], [1])]).isOk = true := by
  refine ⟨by decide, by decide, ?_⟩
  have h := (claim_C7 [([98], [1])] (by decide) (by decide)).2.1 (by decide)
  rw [h.1]
  rfl

/-- A loop step whose file length does not fit 32 bits raises
`struct.error`. -/
theorem romfsStepE_error (acc f : List Nat × List Nat)
    (h : ¬ f.2.length < 2 ^ 32) :
    romfsStepE acc f = Except.error Err.structError := by
  simp only [romfsStepE, packU4, if_neg h, error_bind]

/-- A first file whose length does not fit 32 bits makes `encode_romfs`
raise `struct.error` inside the loop, before the directory-size assertion. -/
theorem encode_romfs_first_too_big (f : List Nat × List Nat)
    (rest : List (List Nat × List Nat)) (hc : (f :: rest).length < 2 ^ 32)
    (h : ¬ f.2.length < 2 ^ 32) :
    encode_romfs (f :: rest) = Except.error Err.structError := by
  simp only [encode_romfs, packU4]
  rw [if_pos hc, ok_bind, List.foldlM_cons, romfsStepE_error _ _ h]
  simp only [error_bind]

/-- The unconditioned claim is false: a single file of `2 ^ 32` content bytes
has an 84-byte directory, well inside the `0xA000` header region, yet
`encode_romfs` raises `struct.error` at `pack("<64sIII", ...)` — the length
field does not fit 32 bits — and produces no archive, with an error distinct
from the directory-size assertion. -/
theorem claim_C7_counterexample :
    (romfsCore [([97], List.replicate (2 ^ 32) 0)]).1.length = 84 ∧
    (84 : Nat) < ROMFS_HEADER_LEN ∧
    encode_romfs [([97], List.replicate (2 ^ 32) 0)]
      = Except.error Err.structError ∧
    Err.structError ≠ Err.assertionError := by
  refine ⟨?_, by decide, ?_, by decide⟩
  · rw [romfsCore_header_length]
    simp only [List.length_cons, List.length_nil]
  · exact encode_romfs_first_too_big _ _
      (by rw [List.length_cons, List.length_nil]; norm_num)
      (by show ¬ (List.replicate (2 ^ 32) (0 : Nat)).length < 2 ^ 32
          rw [List.length_replicate]
          norm_num)

/-! ## C9: the encoder skips the six-segment invariant -/

theorem le_length_of_take_len (l : List Nat) (n : Nat) (h : (l.take n).length = n) :
    n ≤ l.length := by
  rw [List.length_take] at h
  omega

/-- C9: `_encode_body` never checks the six-segment invariant: with any other
segment count (up to the sixteen slots, well-formed fields, and a non-zero
final running-CRC complement) it returns a buffer without error, and
`_decode_body` rejects that buffer with the segment-count format error. -/
theorem claim_C9 (md : BodyMeta) (pl : List (List Nat))
    (hlen : md.segments.length = pl.length) (hne : pl ≠ [])
    (hn16 : pl.length ≤ 16) (hn6 : pl.length ≠ 6)
    (hwf : ∀ p ∈ md.segments.zip pl, WfSeg p)
    (hcomp : 0xFFFFFFFF - (encodeSegs (md.segments.zip pl) 0).2.2 ≠ 0) :
    ∃ out, encode_body md pl = Except.ok out ∧
      decode_body out = Except.error (Err.format "number of segments") := by
  refine ⟨_, encode_body_eq md pl hlen hne, ?_⟩
  have hzplen : (md.segments.zip pl).length = pl.length := by
    rw [List.length_zip, hlen]
    exact Nat.min_self _
  have hbytes : ∀ p ∈ md.segments.zip pl, IsBytes p.2 := fun p hp => (hwf p hp).2.2.2.2.1
  have hEcrc32 : (encodeSegs (md.segments.zip pl) 0).2.2 < 0x100000000 := by
    have := encodeSegs_crc_lt (md.segments.zip pl) 0 (by norm_num) hbytes
    norm_num at this ⊢
    omega
  set E := encodeSegs (md.segments.zip pl) 0 with hE
  set zl := zeroLastSize E.2.1 with hzl
  have hzll : zl.length = pl.length := by
    rw [hzl, zeroLastSize_length, hE, encodeSegs_infos_length, hzplen]
  set padded := zl ++ List.replicate (16 - zl.length) ((0 : Nat), (0 : Nat)) with hpadded
  have hpadlen : padded.length = 16 := by
    rw [hpadded, List.length_append, List.length_replicate, hzll]
    omega
  have htake16 : padded.take 16 = padded := List.take_of_length_le (le_of_eq hpadlen)
  set flat := ((padded.take 16).map slotBytes).flatten with hflat
  have hflatlen : flat.length = 128 := by
    rw [hflat, htake16, slotsFlatten_length, hpadlen]
  have hshape : List.replicate 32 0 ++ toLE 4 HEADER_MAGIC ++ toLE 4 E.2.2
      ++ List.replicate 8 0 ++ flat ++ md.header_extra ++ E.1
      = List.replicate 32 0 ++ (toLE 4 HEADER_MAGIC ++ (toLE 4 E.2.2
        ++ (List.replicate 8 0 ++ (flat ++ (md.header_extra ++ E.1))))) := by
    simp [List.append_assoc]
  rw [hshape]
  set out2 := List.replicate 32 0 ++ (toLE 4 HEADER_MAGIC ++ (toLE 4 E.2.2
      ++ (List.replicate 8 0 ++ (flat ++ (md.header_extra ++ E.1))))) with hout2d
  have hd32 : out2.drop 32 = toLE 4 HEADER_MAGIC ++ (toLE 4 E.2.2
      ++ (List.replicate 8 0 ++ (flat ++ (md.header_extra ++ E.1)))) := by
    rw [hout2d]
    exact List.drop_left' (List.length_replicate 32 0)
  have hd36 : out2.drop 36 = toLE 4 E.2.2
      ++ (List.replicate 8 0 ++ (flat ++ (md.header_extra ++ E.1))) := by
    have e1 : (out2.drop 32).drop 4 = out2.drop 36 := by
      rw [List.drop_drop]
    rw [← e1, hd32, drop4_here]
  have hd40 : out2.drop 40 = List.replicate 8 0 ++ (flat ++ (md.header_extra ++ E.1)) := by
    have e1 : (out2.drop 36).drop 4 = out2.drop 40 := by
      rw [List.drop_drop]
    rw [← e1, hd36, drop4_here]
  have hd48 : out2.drop 48 = flat ++ (md.header_extra ++ E.1) := by
    have e1 : (out2.drop 40).drop 8 = out2.drop 48 := by
      rw [List.drop_drop]
    rw [← e1, hd40]
    exact List.drop_left' (List.length_replicate 8 0)
  have hlength : 176 ≤ out2.length := by
    rw [hout2d]
    simp only [List.length_append, List.length_replicate, toLE_length, hflatlen]
    omega
  have hz1 : out2.take 32 = List.replicate 32 0 := by
    rw [hout2d]
    exact List.take_left' (List.length_replicate 32 0)
  have hmagic : fromLE ((out2.drop 32).take 4) = HEADER_MAGIC := by
    rw [hd32]
    exact fromLE4_here _ _ (by norm_num [HEADER_MAGIC])
  have hz2 : (out2.drop 40).take 8 = List.replicate 8 0 := by
    rw [hd40]
    exact List.take_left' (List.length_replicate 8 0)
  rw [decode_body_reduce out2 hlength hz1 hmagic hz2, hd48]
  have hbound : ∀ q ∈ padded, q.1 < 0x100000000 ∧ q.2 < 0x100000000 := by
    intro q hq
    rcases List.mem_append.mp hq with h | h
    · exact zeroLastSize_bound _ (encodeSegs_infos_bound _ _
        (fun p hp => (hwf p hp).2.2.2.2.2)) q h
    · have := List.eq_of_mem_replicate h
      subst this
      norm_num
  have hparse : parseSlots flat = padded := by
    rw [hflat, htake16]
    unfold parseSlots
    rw [show (16 : Nat) = padded.length from hpadlen.symm,
      ← List.append_nil ((padded.map slotBytes).flatten)]
    exact parseSlotsN_flatten padded [] hbound
  have hzipne : md.segments.zip pl ≠ [] := by
    intro hc
    rw [hc] at hzplen
    have h0 : pl.length = 0 := by simpa using hzplen.symm
    exact hne (List.length_eq_zero.mp h0)
  have hlast : zl.getLast? = some (0, 0xFFFFFFFF - E.2.2) := by
    rw [hzl, zeroLastSize_getLast, hE, encodeSegs_getLast]
    cases hlz : (md.segments.zip pl).getLast? with
    | none => exact absurd (List.getLast?_eq_none_iff.mp hlz) hzipne
    | some p => simp
  have htrim : trimSlots padded = zl := by
    rw [hpadded, trimSlots_append_replicate]
    exact trimSlots_getLast_ne zl _ hlast (by
      intro hc
      rw [Prod.mk.injEq] at hc
      exact hcomp hc.2)
  simp only [decodeBodyTail]
  rw [List.take_left' hflatlen, hparse, htrim,
    validate_eq_err (show zl.length ≠ 6 from by rw [hzll]; exact hn6) "number of segments",
    error_bind]

set_option maxRecDepth 100000 in
set_option maxHeartbeats 1000000 in
theorem claim_C9_witness :
    ∃ out, encode_body ⟨List.replicate 0x180 0, [⟨SEGMENT_VERSION, 0, 0, 0⟩]⟩ [[]]
        = Except.ok out ∧
      decode_body out = Except.error (Err.format "number of segments") :=
  claim_C9 ⟨List.replicate 0x180 0, [⟨SEGMENT_VERSION, 0, 0, 0⟩]⟩ [[]]
    (by decide) (by decide) (by decide) (by decide) (by decide) (by decide)

set_option maxRecDepth 400000 in
set_option maxHeartbeats 4000000 in
theorem claim_C9_counterexample :
    encode_body exC9md exC9pl = Except.ok exC9out ∧
    exC9pl.length = 7 ∧
    decode_body exC9out ≠ Except.error (Err.format "number of segments") := by
  refine ⟨?_, by decide, ?_⟩
  · rw [encode_body_eq exC9md exC9pl (by decide) (by decide)]
    rfl
  · intro hc
    have hiff := decode_body_count_iff exC9out
      (le_length_of_take_len _ _ (by decide)) (by decide) (by decide) (by decide)
    exact (hiff.mp hc) (by decide)

/-! ## C8 and C2: the codec roundtrips -/

/-- C8: encode-then-decode at the trailer level returns the metadata and body
exactly, provided additionally that the version name is ASCII, does not end in
a zero byte, and the body is shorter than `2^32` bytes. -/
theorem claim_C8 (m : TrailerMeta) (body : List Nat)
    (hprod : m.product_name = onex3)
    (hhw : m.hw_id = wfni3xno)
    (hrev : m.hw_rev = 1)
    (hascii : ∀ b ∈ m.version_name, b < 0x80)
    (hvlen : m.version_name.length ≤ 32)
    (hvlast : m.version_name.getLast?.getD 1 ≠ 0)
    (hblen : body.length < 0x100000000) :
    decode_trailer (encode_trailer m body) = Except.ok (m, body) :=
  decode_encode_trailer m body hprod hhw hrev hascii hvlen hvlast hblen

theorem claim_C8_witness :
    decode_trailer (encode_trailer ⟨onex3, [118, 49], wfni3xno, 1⟩ [9, 9, 9])
      = Except.ok (⟨onex3, [118, 49], wfni3xno, 1⟩, [9, 9, 9]) :=
  claim_C8 ⟨onex3, [118, 49], wfni3xno, 1⟩ [9, 9, 9]
    (by decide) (by decide) (by decide) (by decide) (by decide) (by decide) (by decide)

set_option maxRecDepth 200000 in
set_option maxHeartbeats 4000000 in
theorem claim_C8_counterexample :
    decode_trailer (encode_trailer ⟨onex3, [233], wfni3xno, 1⟩ [])
      ≠ Except.ok (⟨onex3, [233], wfni3xno, 1⟩, []) := by
  decide

/-- C2: decode-then-encode is byte-identical, at the trailer level when the
decoded version name is ASCII, and at the body level when the trimmed slot
table has non-zero sizes in all non-last slots, a zero size in the last slot,
and the last segment header declares the length of the payload actually
decoded. -/
theorem claim_C2 :
    (∀ buf m data, IsBytes buf → decode_trailer buf = Except.ok (m, data) →
      (∀ b ∈ m.version_name, b < 0x80) → encode_trailer m data = buf) ∧
    (∀ buf r, IsBytes buf → decode_body buf = Except.ok r →
      (∀ i, i + 1 < (trimSlots (parseSlots ((buf.drop 48).take 128))).length →
        ((trimSlots (parseSlots ((buf.drop 48).take 128))).getD i (0, 0)).1 ≠ 0) →
      ((trimSlots (parseSlots ((buf.drop 48).take 128))).getLast?.getD (0, 0)).1 = 0 →
      fromLE ((buf.drop (segConsumed r.2.dropLast + 12 + 560)).take 4) =
        (r.2.getLast?.getD []).length →
      encode_body r.1 r.2 = Except.ok buf) :=
  ⟨fun buf m data hb h ha => encode_decode_trailer buf m data hb h ha,
    fun buf r hb h hnz hlz hhon => encode_decode_body buf r hb h hnz hlz hhon⟩

set_option maxRecDepth 200000 in
set_option maxHeartbeats 4000000 in
theorem claim_C2_counterexample :
    decode_trailer exC2buf = Except.ok (⟨onex3, [0xE9], wfni3xno, 1⟩, [9, 9, 9]) ∧
    encode_trailer ⟨onex3, [0xE9], wfni3xno, 1⟩ [9, 9, 9] ≠ exC2buf := by
  decide

/-! ## Byte-flip helpers -/

theorem getD_drop (l : List Nat) (n k d : Nat) :
    (l.drop n).getD k d = l.getD (n + k) d := by
  rw [List.getD_eq_getElem?_getD, List.getD_eq_getElem?_getD, List.getElem?_drop]

theorem getD_take_lt (l : List Nat) (n k d : Nat) (h : k < n) :
    (l.take n).getD k d = l.getD k d := by
  rw [List.getD_eq_getElem?_getD, List.getD_eq_getElem?_getD, List.getElem?_take, if_pos h]

theorem getD_set_self (l : List Nat) (i a d : Nat) (h : i < l.length) :
    (l.set i a).getD i d = a := by
  rw [List.getD_eq_getElem?_getD, List.getElem?_set_self h]
  rfl

theorem set_ne_self (l : List Nat) (i a : Nat) (h : i < l.length)
    (hne : a ≠ l.getD i 0) : l.set i a ≠ l := by
  intro hc
  apply hne
  calc a = (l.set i a).getD i 0 := (getD_set_self l i a 0 h).symm
    _ = l.getD i 0 := by rw [hc]

theorem set_decomp (l : List Nat) (k a : Nat) (h : k < l.length) :
    l.set k a = l.take k ++ a :: l.drop (k + 1) := by
  rw [List.set_eq_take_append_cons_drop, if_pos h]

theorem self_decomp_at (l : List Nat) (k : Nat) (h : k < l.length) :
    l = l.take k ++ l.getD k 0 :: l.drop (k + 1) := by
  conv_lhs => rw [← List.take_append_drop k l]
  rw [List.drop_eq_getElem_cons h]
  congr 2
  rw [List.getD_eq_getElem?_getD, List.getElem?_eq_getElem h]
  rfl

theorem getD_lt_of_isBytes (l : List Nat) (k : Nat) (h : IsBytes l)
    (hk : k < l.length) : l.getD k 0 < 256 := by
  rw [List.getD_eq_getElem?_getD, List.getElem?_eq_getElem hk]
  exact h _ (List.getElem_mem hk)

theorem isBytes_set (l : List Nat) (i a : Nat) (hl : IsBytes l) (ha : a < 256) :
    IsBytes (l.set i a) := by
  by_cases h : i < l.length
  · rw [set_decomp l i a h]
    intro b hb
    rcases List.mem_append.mp hb with h1 | h1
    · exact isBytes_take _ hl b h1
    · rcases List.mem_cons.mp h1 with h2 | h2
      · subst h2; exact ha
      · exact isBytes_drop _ hl b h2
  · rw [List.set_eq_of_length_le (by omega)]
    exact hl

/-- Flipping a byte of a byte string changes its little-endian value. -/
theorem fromLE_set_ne (l : List Nat) (k b' : Nat) (hk : k < l.length)
    (hbytes : IsBytes l) (hb' : b' < 256) (hne : b' ≠ l.getD k 0) :
    fromLE (l.set k b') ≠ fromLE l := by
  intro hc
  exact set_ne_self l k b' hk hne
    (fromLE_inj _ _ (isBytes_set l k b' hbytes hb') hbytes (List.length_set l k b') hc)

/-- Flipping a byte of a byte string changes its CRC-32. -/
theorem crc32_set_ne (data : List Nat) (k b' : Nat) (hk : k < data.length)
    (hbytes : IsBytes data) (hb' : b' < 256) (hne : b' ≠ data.getD k 0) :
    crc32 (data.set k b') 0 ≠ crc32 data 0 := by
  rw [set_decomp data k b' hk]
  conv_rhs => rw [self_decomp_at data k hk]
  exact crc32_flip (data.take k) (data.drop (k + 1)) 0
    (isBytes_take _ hbytes) (isBytes_drop _ hbytes) hb'
    (getD_lt_of_isBytes data k hbytes hk) (by norm_num) hne

theorem segConsumed_nil : segConsumed [] = 0 := rfl

theorem segConsumed_cons (d : List Nat) (ds : List (List Nat)) :
    segConsumed (d :: ds) = 256 + d.length + segConsumed ds := by
  simp only [segConsumed, List.map_cons, List.sum_cons]

/-! ## Tampering inside the segment loop -/

/-- Flipping one byte inside the CRC field of the `j`-th segment header, or
inside the `j`-th segment payload, turns a successful `decodeSegs` run into
the `"segment data crc"` format error. -/
theorem decodeSegs_flip (slots : List (Nat × Nat)) (buf : List Nat) (crc : Nat)
    (r : List SegMeta × List (List Nat) × List Nat × Nat)
    (h : decodeSegs slots buf crc = Except.ok r)
    (hbytes : IsBytes buf)
    (j i b' : Nat) (hj : j < slots.length) (hb' : b' < 256) (hne : b' ≠ buf.getD i 0)
    (hregion :
      (segConsumed (r.2.1.take j) ≤ i ∧ i < segConsumed (r.2.1.take j) + 4) ∨
      (segConsumed (r.2.1.take j) + 256 ≤ i ∧
        i < segConsumed (r.2.1.take j) + 256 + (r.2.1.getD j []).length)) :
    decodeSegs slots (buf.set i b') crc = Except.error (Err.format "segment data crc") := by
  induction slots generalizing buf crc r j i with
  | nil => rw [List.length_nil] at hj; omega
  | cons s slots ih =>
    obtain ⟨h256, hver, hmag, hpad, hsz, hdcrc, hrcrc, r', hr', hreq⟩ :=
      decodeSegs_cons_ok s slots buf crc r h
    subst hreq
    obtain ⟨sz, sc⟩ := s
    set L := fromLE (((buf.take 256).drop 12).take 4) with hL
    have hbuflen : 256 ≤ buf.length := by
      have h2 := List.length_take 256 buf
      rw [h256] at h2
      have h3 := Nat.min_le_right 256 buf.length
      omega
    have hp0len : ((buf.drop 256).take L).length ≤ L := by
      have := List.length_take L (buf.drop 256)
      have h3 := Nat.min_le_left L (buf.drop 256).length
      omega
    cases j with
    | zero =>
      simp only [List.take_zero, segConsumed_nil, List.getD_cons_zero] at hregion
      rcases hregion with ⟨h1, h2⟩ | ⟨h1, h2⟩
      · -- flip inside the header CRC field: `i < 4`
        have hi4 : i < 4 := by omega
        have hs4len : ((buf.take 256).take 4).length = 4 := by
          rw [List.length_take, h256]
          norm_num
        simp only [decodeSegs]
        have h256s : ((buf.set i b').take 256).length = 256 := by
          rw [List.set_take, List.length_set, h256]
        rw [if_neg (by simp [h256s])]
        simp only [List.set_take]
        rw [drop_set_of_lt _ i 4 _ (by omega), drop_set_of_lt _ i 8 _ (by omega),
          drop_set_of_lt _ i 12 _ (by omega), drop_set_of_lt _ i 16 _ (by omega),
          drop_set_of_lt _ i 20 _ (by omega), drop_set_of_lt _ i 24 _ (by omega),
          drop_set_of_lt _ i 28 _ (by omega), drop_set_of_lt buf i 256 _ (by omega)]
        rw [← hL]
        rw [validate_eq_ok hver "segment version?", ok_bind,
          validate_eq_ok hmag "segment magic", ok_bind,
          hpad, validate_padding_replicate, ok_bind]
        have hne4 : b' ≠ ((buf.take 256).take 4).getD i 0 := by
          rw [getD_take_lt _ _ _ _ hi4, getD_take_lt _ _ _ _ (by omega)]
          exact hne
        have hfinal : crc32 ((buf.drop 256).take L) 0
            ≠ fromLE (((buf.take 256).take 4).set i b') := by
          rw [hdcrc]
          exact (fromLE_set_ne ((buf.take 256).take 4) i b' (by omega)
            (isBytes_take _ (isBytes_take _ hbytes)) hb' hne4).symm
        by_cases hs0 : sz = 0
        · rw [if_neg (by omega), pure_ok, ok_bind,
            validate_eq_err hfinal "segment data crc", error_bind]
        · rw [if_pos hs0, validate_eq_ok (hsz hs0) "segment size", ok_bind,
            validate_eq_err hfinal "segment data crc", error_bind]
      · -- flip inside the payload of the first segment
        have hk : i - 256 < ((buf.drop 256).take L).length := by omega
        simp only [decodeSegs]
        have h256s : ((buf.set i b').take 256).length = 256 := by
          rw [take_set_of_le _ _ _ _ (by omega), h256]
        rw [if_neg (by simp [h256s])]
        rw [take_set_of_le buf i 256 _ (by omega), drop_set_of_le buf i 256 _ (by omega)]
        simp only [List.set_take]
        rw [← hL]
        rw [validate_eq_ok hver "segment version?", ok_bind,
          validate_eq_ok hmag "segment magic", ok_bind,
          hpad, validate_padding_replicate, ok_bind]
        have hnep : b' ≠ ((buf.drop 256).take L).getD (i - 256) 0 := by
          rw [getD_take_lt _ _ _ _ (by omega), getD_drop,
            show 256 + (i - 256) = i from by omega]
          exact hne
        have hfinal : crc32 (((buf.drop 256).take L).set (i - 256) b') 0
            ≠ fromLE ((buf.take 256).take 4) := by
          rw [← hdcrc]
          exact crc32_set_ne ((buf.drop 256).take L) (i - 256) b' hk
            (isBytes_take _ (isBytes_drop _ hbytes)) hb' hnep
        by_cases hs0 : sz = 0
        · rw [if_neg (by omega), pure_ok, ok_bind,
            validate_eq_err hfinal "segment data crc", error_bind]
        · rw [if_pos hs0, validate_eq_ok (hsz hs0) "segment size", ok_bind,
            validate_eq_err hfinal "segment data crc", error_bind]
    | succ j =>
      have hj' : j < slots.length := by
        rw [List.length_cons] at hj
        omega
      have hslots_ne : slots ≠ [] := by
        intro hc
        rw [hc] at hj'
        simp at hj'
      have hrest256 : 256 ≤ ((buf.drop 256).drop L).length := by
        cases hsl : slots with
        | nil => exact absurd hsl hslots_ne
        | cons s2 slots2 =>
          rw [hsl] at hr'
          obtain ⟨h256b, _⟩ := decodeSegs_cons_ok s2 slots2 _ _ r' hr'
          have h2 := List.length_take 256 ((buf.drop 256).drop L)
          rw [h256b] at h2
          have h3 := Nat.min_le_right 256 ((buf.drop 256).drop L).length
          omega
      have hdlen : ((buf.drop 256).take L).length = L := by
        rw [List.length_take]
        simp only [List.length_drop] at hrest256 ⊢
        omega
      simp only [List.take_succ_cons, List.getD_cons_succ] at hregion
      rw [segConsumed_cons] at hregion
      have hiL : 256 + L ≤ i := by
        rw [hdlen] at hregion
        rcases hregion with ⟨h1, h2⟩ | ⟨h1, h2⟩ <;> omega
      simp only [decodeSegs]
      have h256s : ((buf.set i b').take 256).length = 256 := by
        rw [take_set_of_le _ _ _ _ (by omega), h256]
      rw [if_neg (by simp [h256s])]
      rw [take_set_of_le buf i 256 _ (by omega), drop_set_of_le buf i 256 _ (by omega)]
      rw [← hL]
      rw [take_set_of_le _ _ _ _ (by omega), drop_set_of_le _ _ _ _ (by omega)]
      rw [validate_eq_ok hver "segment version?", ok_bind,
        validate_eq_ok hmag "segment magic", ok_bind,
        hpad, validate_padding_replicate, ok_bind]
      have hner : b' ≠ ((buf.drop 256).drop L).getD (i - 256 - L) 0 := by
        rw [getD_drop, getD_drop, show 256 + (L + (i - 256 - L)) = i from by omega]
        exact hne
      have hreg' :
          (segConsumed (r'.2.1.take j) ≤ i - 256 - L ∧
            i - 256 - L < segConsumed (r'.2.1.take j) + 4) ∨
          (segConsumed (r'.2.1.take j) + 256 ≤ i - 256 - L ∧
            i - 256 - L < segConsumed (r'.2.1.take j) + 256 + (r'.2.1.getD j []).length) := by
        rw [hdlen] at hregion
        rcases hregion with ⟨h1, h2⟩ | ⟨h1, h2⟩
        · exact Or.inl (by omega)
        · exact Or.inr (by omega)
      have hih := ih _ _ r' hr' (isBytes_drop _ (isBytes_drop _ hbytes)) j (i - 256 - L)
        hj' hner hreg'
      by_cases hs0 : sz = 0
      · rw [if_neg (by omega), pure_ok, ok_bind,
          validate_eq_ok hdcrc "segment data crc", ok_bind,
          validate_eq_ok hrcrc "segment running crc", ok_bind,
          hih, error_bind]
      · rw [if_pos hs0, validate_eq_ok (hsz hs0) "segment size", ok_bind,
          validate_eq_ok hdcrc "segment data crc", ok_bind,
          validate_eq_ok hrcrc "segment running crc", ok_bind,
          hih, error_bind]

/-! ## Tampering at the body level -/

/-- Flipping one byte of a decodable body inside a segment payload or a
segment header's CRC field makes `_decode_body` fail with the
`"segment data crc"` error. -/
theorem decode_body_flip_seg (buf : List Nat) (r : BodyMeta × List (List Nat))
    (hbytes : IsBytes buf) (h : decode_body buf = Except.ok r)
    (j i b' : Nat) (hj : j < r.2.length) (hb' : b' < 256) (hne : b' ≠ buf.getD i 0)
    (hregion :
      (560 + segConsumed (r.2.take j) ≤ i ∧ i < 560 + segConsumed (r.2.take j) + 4) ∨
      (560 + segConsumed (r.2.take j) + 256 ≤ i ∧
        i < 560 + segConsumed (r.2.take j) + 256 + (r.2.getD j []).length)) :
    decode_body (buf.set i b') = Except.error (Err.format "segment data crc") := by
  obtain ⟨h176, hz1, hmagic, hz2, hcount, r', hv5, htrail, hcrc, hreq⟩ :=
    decode_body_ok buf r h
  have hr2 : r.2 = r'.2.1 := by rw [hreq]
  rw [hr2] at hj hregion
  have hi560 : 560 ≤ i := by
    rcases hregion with ⟨h1, _⟩ | ⟨h1, _⟩ <;> omega
  have h176s : 176 ≤ (buf.set i b').length := by
    rw [List.length_set]
    exact h176
  have hz1s : (buf.set i b').take 32 = List.replicate 32 0 := by
    rw [take_set_of_le _ _ _ _ (by omega)]
    exact hz1
  have hmagics : fromLE (((buf.set i b').drop 32).take 4) = HEADER_MAGIC := by
    rw [drop_set_of_le _ _ _ _ (by omega), take_set_of_le _ _ _ _ (by omega)]
    exact hmagic
  have hz2s : ((buf.set i b').drop 40).take 8 = List.replicate 8 0 := by
    rw [drop_set_of_le _ _ _ _ (by omega), take_set_of_le _ _ _ _ (by omega)]
    exact hz2
  rw [decode_body_reduce _ h176s hz1s hmagics hz2s]
  simp only [decodeBodyTail]
  have hslot : ((buf.set i b').drop 48).take 128 = (buf.drop 48).take 128 := by
    rw [drop_set_of_le _ _ _ _ (by omega), take_set_of_le _ _ _ _ (by omega)]
  have hsegsbuf : (((buf.set i b').drop 48).drop 128).drop 0x180
      = (((buf.drop 48).drop 128).drop 0x180).set (i - 560) b' := by
    rw [drop_set_of_le _ _ _ _ (by omega), drop_set_of_le _ _ _ _ (by omega),
      drop_set_of_le _ _ _ _ (by omega), show i - 48 - 128 - 0x180 = i - 560 from by omega]
  have hspec := decodeSegs_spec _ _ _ _ hv5
  have hj' : j < (trimSlots (parseSlots ((buf.drop 48).take 128))).length := by
    rw [← hspec.2.1]
    exact hj
  have hne' : b' ≠ ((((buf.drop 48).drop 128).drop 0x180)).getD (i - 560) 0 := by
    rw [getD_drop, getD_drop, getD_drop,
      show 48 + (128 + (0x180 + (i - 560))) = i from by omega]
    exact hne
  have hreg' :
      (segConsumed (r'.2.1.take j) ≤ i - 560 ∧
        i - 560 < segConsumed (r'.2.1.take j) + 4) ∨
      (segConsumed (r'.2.1.take j) + 256 ≤ i - 560 ∧
        i - 560 < segConsumed (r'.2.1.take j) + 256 + (r'.2.1.getD j []).length) := by
    rcases hregion with ⟨h1, h2⟩ | ⟨h1, h2⟩
    · exact Or.inl (by omega)
    · exact Or.inr (by omega)
  rw [hslot, validate_eq_ok hcount "number of segments", ok_bind, hsegsbuf,
    decodeSegs_flip _ _ _ r' hv5
      (isBytes_drop _ (isBytes_drop _ (isBytes_drop _ hbytes)))
      j (i - 560) b' hj' hb' hne' hreg',
    error_bind]

/-- Flipping one byte of a decodable body inside the 4-byte body CRC field
makes `_decode_body` fail with the `"body crc"` error. -/
theorem decode_body_flip_bodycrc (buf : List Nat) (r : BodyMeta × List (List Nat))
    (hbytes : IsBytes buf) (h : decode_body buf = Except.ok r)
    (i b' : Nat) (h36 : 36 ≤ i) (h40 : i < 40) (hb' : b' < 256)
    (hne : b' ≠ buf.getD i 0) :
    decode_body (buf.set i b') = Except.error (Err.format "body crc") := by
  obtain ⟨h176, hz1, hmagic, hz2, hcount, r', hv5, htrail, hcrc, hreq⟩ :=
    decode_body_ok buf r h
  have h176s : 176 ≤ (buf.set i b').length := by
    rw [List.length_set]
    exact h176
  have hz1s : (buf.set i b').take 32 = List.replicate 32 0 := by
    rw [take_set_of_le _ _ _ _ (by omega)]
    exact hz1
  have hmagics : fromLE (((buf.set i b').drop 32).take 4) = HEADER_MAGIC := by
    rw [drop_set_of_le _ _ _ _ (by omega), take_set_of_le _ _ _ _ (by omega)]
    exact hmagic
  have hz2s : ((buf.set i b').drop 40).take 8 = List.replicate 8 0 := by
    rw [drop_set_of_lt _ _ _ _ (by omega)]
    exact hz2
  rw [decode_body_reduce _ h176s hz1s hmagics hz2s]
  have hcrcslice : ((buf.set i b').drop 36).take 4
      = ((buf.drop 36).take 4).set (i - 36) b' := by
    rw [drop_set_of_le _ _ _ _ (by omega), List.set_take]
  have hs48 : (buf.set i b').drop 48 = buf.drop 48 :=
    drop_set_of_lt _ _ _ _ (by omega)
  rw [hcrcslice, hs48]
  simp only [decodeBodyTail]
  have hlen4 : ((buf.drop 36).take 4).length = 4 := by
    rw [List.length_take, List.length_drop]
    omega
  have hne36 : b' ≠ ((buf.drop 36).take 4).getD (i - 36) 0 := by
    rw [getD_take_lt _ _ _ _ (by omega), getD_drop, show 36 + (i - 36) = i from by omega]
    exact hne
  have hfinal : r'.2.2.2 ≠ fromLE (((buf.drop 36).take 4).set (i - 36) b') := by
    rw [hcrc]
    exact (fromLE_set_ne ((buf.drop 36).take 4) (i - 36) b' (by omega)
      (isBytes_take _ (isBytes_drop _ hbytes)) hb' hne36).symm
  rw [validate_eq_ok hcount "number of segments", ok_bind, hv5, ok_bind,
    validate_eq_ok htrail "trailing data", ok_bind,
    validate_eq_err hfinal "body crc", error_bind]

/-! ## Tampering with the trailer hash -/

/-- Flipping one byte of the final 16-byte MD5 field of a decodable firmware
file makes `_decode_trailer` fail with the `"final hash"` error. -/
theorem decode_trailer_flip_hash (buf : List Nat) (m : TrailerMeta) (data : List Nat)
    (h : decode_trailer buf = Except.ok (m, data))
    (i b' : Nat) (hi1 : buf.length - 16 ≤ i) (hi2 : i < buf.length)
    (hne : b' ≠ buf.getD i 0) :
    decode_trailer (buf.set i b') = Except.error (Err.format "final hash") := by
  simp only [decode_trailer] at h
  by_cases h116 : buf.length < 116
  · exfalso
    rw [if_pos h116, List.drop_length] at h
    simp only [List.take_nil, List.drop_nil] at h
    rw [validate_eq_ok (show ([] : List Nat) = [] from rfl) "trailing data", ok_bind,
      validate_eq_err (md5_ne_nil _) "final hash", error_bind] at h
    exact Except.noConfusion h
  · rw [if_neg h116] at h
    have hrest : ((buf.drop (buf.length - 116)).drop 100).drop 16 = [] := by
      rw [List.drop_drop, List.drop_drop]
      apply List.drop_eq_nil_of_le
      omega
    rw [hrest, validate_eq_ok (show ([] : List Nat) = [] from rfl) "trailing data",
      ok_bind] at h
    cases hv2 : validate_eq
        (md5 (buf.take (buf.length - 116) ++ (buf.drop (buf.length - 116)).take 100))
        (((buf.drop (buf.length - 116)).drop 100).take 16) "final hash" with
    | error e =>
      rw [hv2, error_bind] at h
      exact Except.noConfusion h
    | ok u =>
    have hhash : md5 (buf.take (buf.length - 116) ++ (buf.drop (buf.length - 116)).take 100)
        = ((buf.drop (buf.length - 116)).drop 100).take 16 := by
      by_contra hc
      rw [validate_eq_err hc] at hv2
      exact Except.noConfusion hv2
    clear h hv2
    simp only [decode_trailer]
    rw [List.length_set, if_neg h116]
    have hdata : (buf.set i b').take (buf.length - 116) = buf.take (buf.length - 116) :=
      take_set_of_le _ _ _ _ (by omega)
    have hdropD : (buf.set i b').drop (buf.length - 116)
        = (buf.drop (buf.length - 116)).set (i - (buf.length - 116)) b' :=
      drop_set_of_le _ _ _ _ (by omega)
    have htrailer : ((buf.drop (buf.length - 116)).set (i - (buf.length - 116)) b').take 100
        = (buf.drop (buf.length - 116)).take 100 :=
      take_set_of_le _ _ _ _ (by omega)
    have hdrop100 : ((buf.drop (buf.length - 116)).set (i - (buf.length - 116)) b').drop 100
        = ((buf.drop (buf.length - 116)).drop 100).set (i - (buf.length - 116) - 100) b' :=
      drop_set_of_le _ _ _ _ (by omega)
    have hfin : (((buf.drop (buf.length - 116)).drop 100).set
          (i - (buf.length - 116) - 100) b').take 16
        = (((buf.drop (buf.length - 116)).drop 100).take 16).set
          (i - (buf.length - 116) - 100) b' := List.set_take
    have hrest' : (((buf.drop (buf.length - 116)).drop 100).set
          (i - (buf.length - 116) - 100) b').drop 16
        = ((buf.drop (buf.length - 116)).drop 100).drop 16 :=
      drop_set_of_lt _ _ _ _ (by omega)
    rw [hdata, hdropD, htrailer, hdrop100, hfin, hrest', hrest,
      validate_eq_ok (show ([] : List Nat) = [] from rfl) "trailing data", ok_bind]
    have hfinlen : (((buf.drop (buf.length - 116)).drop 100).take 16).length = 16 := by
      rw [List.length_take, List.length_drop, List.length_drop]
      omega
    have hk16 : i - (buf.length - 116) - 100 < 16 := by omega
    have hbk : b' ≠ (((buf.drop (buf.length - 116)).drop 100).take 16).getD
        (i - (buf.length - 116) - 100) 0 := by
      rw [getD_take_lt _ _ _ _ hk16, getD_drop, getD_drop,
        show buf.length - 116 + (100 + (i - (buf.length - 116) - 100)) = i from by omega]
      exact hne
    have hfinalne : md5 (buf.take (buf.length - 116)
          ++ (buf.drop (buf.length - 116)).take 100)
        ≠ (((buf.drop (buf.length - 116)).drop 100).take 16).set
          (i - (buf.length - 116) - 100) b' := by
      rw [hhash]
      intro hc
      exact set_ne_self _ _ _ (by omega) hbk hc.symm
    rw [validate_eq_err hfinalne "final hash", error_bind]

/-- C3: flipping a single byte of a decodable input inside a segment payload,
inside a segment header's CRC field, inside the body CRC field, or inside the
trailer's final hash, always turns decoding into the corresponding
checksum-mismatch format error — never a silent success. -/
theorem claim_C3 :
    (∀ buf r j i b', IsBytes buf → decode_body buf = Except.ok r →
      j < r.2.length → b' < 256 → b' ≠ buf.getD i 0 →
      560 + segConsumed (r.2.take j) + 256 ≤ i →
      i < 560 + segConsumed (r.2.take j) + 256 + (r.2.getD j []).length →
      decode_body (buf.set i b') = Except.error (Err.format "segment data crc")) ∧
    (∀ buf r j i b', IsBytes buf → decode_body buf = Except.ok r →
      j < r.2.length → b' < 256 → b' ≠ buf.getD i 0 →
      560 + segConsumed (r.2.take j) ≤ i → i < 560 + segConsumed (r.2.take j) + 4 →
      decode_body (buf.set i b') = Except.error (Err.format "segment data crc")) ∧
    (∀ buf r i b', IsBytes buf → decode_body buf = Except.ok r →
      36 ≤ i → i < 40 → b' < 256 → b' ≠ buf.getD i 0 →
      decode_body (buf.set i b') = Except.error (Err.format "body crc")) ∧
    (∀ buf m data i b', decode_trailer buf = Except.ok (m, data) →
      buf.length - 16 ≤ i → i < buf.length → b' ≠ buf.getD i 0 →
      decode_trailer (buf.set i b') = Except.error (Err.format "final hash")) :=
  ⟨fun buf r j i b' hbytes h hj hb' hne h1 h2 =>
      decode_body_flip_seg buf r hbytes h j i b' hj hb' hne (Or.inr ⟨h1, h2⟩),
    fun buf r j i b' hbytes h hj hb' hne h1 h2 =>
      decode_body_flip_seg buf r hbytes h j i b' hj hb' hne (Or.inl ⟨h1, h2⟩),
    fun buf r i b' hbytes h h36 h40 hb' hne =>
      decode_body_flip_bodycrc buf r hbytes h i b' h36 h40 hb' hne,
    fun buf m data i b' h hi1 hi2 hne =>
      decode_trailer_flip_hash buf m data h i b' hi1 hi2 hne⟩

theorem claim_C3_witness :
    decode_trailer ((encode_trailer ⟨onex3, [118], wfni3xno, 1⟩ [1]).set 116
        ((encode_trailer ⟨onex3, [118], wfni3xno, 1⟩ [1]).getD 116 0 + 1))
      = Except.error (Err.format "final hash") := by
  have hdec : decode_trailer (encode_trailer ⟨onex3, [118], wfni3xno, 1⟩ [1])
      = Except.ok (⟨onex3, [118], wfni3xno, 1⟩, [1]) :=
    decode_encode_trailer _ _ (by decide) (by decide) (by decide) (by decide)
      (by decide) (by decide) (by decide)
  have hlen : (encode_trailer ⟨onex3, [118], wfni3xno, 1⟩ [1]).length = 117 := by
    simp only [encode_trailer, List.length_append, toLE_length, packBytes_length,
      md5_length, List.length_cons, List.length_nil]
  exact claim_C3.2.2.2 _ _ _ 116 _ hdec (by rw [hlen]; omega) (by rw [hlen]; omega)
    (by omega)

end Fwtool
